import Mathlib

/-!
Verification of the Float-V on-demand transform and import-rewriting pipeline
(`src/build/transform.ts`).  Source strings are modelled as lists of
characters, the filesystem and the in-memory module cache as explicit state,
and the external collaborators (esbuild, node module resolution, sha256,
dynamic import) as components of an environment record.  All definitions are
executable.
-/

namespace FloatV

/-- Code and paths are modelled as lists of characters. -/
abbrev Str := List Char

/-- Conversion from Lean string literals. -/
def str (s : String) : Str := s.data

/-- The single-quote character (U+0027), built numerically. -/
def qc : Char := Char.ofNat 39

/-- The double-quote character (U+0022). -/
def dq : Char := Char.ofNat 34

/-- JavaScript whitespace class used by the rewriting regexes. -/
def isWsChar (c : Char) : Bool :=
  c == ' ' || c == Char.ofNat 9 || c == Char.ofNat 10 || c == Char.ofNat 13
    || c == Char.ofNat 11 || c == Char.ofNat 12

/-- A character that terminates the quoted specifier group. -/
def isQuoteChar (c : Char) : Bool := c == qc || c == dq

/-- Longest prefix of characters satisfying a predicate, together with the rest. -/
def spanP (p : Char → Bool) : Str → Str × Str
  | [] => ([], [])
  | c :: cs =>
    if p c then
      let r := spanP p cs
      (c :: r.1, r.2)
    else ([], c :: cs)

/-- Boolean test that the first list is an initial segment of the second. -/
def isPreOf : Str → Str → Bool
  | [], _ => true
  | _ :: _, [] => false
  | p :: ps, c :: cs => p == c && isPreOf ps cs

/-- Boolean test that the first list is a final segment of the second. -/
def isSufOf (pat l : Str) : Bool := isPreOf pat.reverse l.reverse

/-- Substring occurrence test, mirroring JavaScript `String.prototype.includes`. -/
def occursIn (pat : Str) : Str → Bool
  | [] => pat == ([] : Str)
  | c :: cs => isPreOf pat (c :: cs) || occursIn pat cs

/-- Split a path into the pieces between slashes. -/
def splitSlash : Str → List Str
  | [] => [[]]
  | c :: cs =>
    let r := splitSlash cs
    if c == '/' then [] :: r
    else
      match r with
      | [] => [[c]]
      | s :: ss => (c :: s) :: ss

/-- Resolution of `.` and `..` segments, as node's path normalization does for
absolute paths (`..` at the root is dropped). -/
def normSegs : List Str → List Str → List Str
  | acc, [] => acc.reverse
  | acc, s :: ss =>
    if s == ([] : Str) || s == str "." then normSegs acc ss
    else if s == str ".." then
      match acc with
      | [] => normSegs [] ss
      | _ :: t => normSegs t ss
    else normSegs (s :: acc) ss

/-- Reassemble segments into an absolute path. -/
def joinSegs : List Str → Str
  | [] => []
  | [s] => s
  | s :: ss => s ++ '/' :: joinSegs ss

/-- Is the path absolute (starts with a slash)? -/
def isAbsPath : Str → Bool
  | [] => false
  | c :: _ => c == '/'

/-- Normalization of an absolute path string. -/
def normAbs (p : Str) : Str := '/' :: joinSegs (normSegs [] (splitSlash p))

/-- Model of node `path.resolve(base, p)` for an absolute `base`. -/
def pathResolve (base p : Str) : Str :=
  if isAbsPath p then normAbs p else normAbs (base ++ '/' :: p)

/-- Model of node `path.join(a, b)` for an absolute `a`. -/
def pathJoin (a b : Str) : Str := normAbs (a ++ '/' :: b)

/-- The last path segment. -/
def lastSeg (p : Str) : Str :=
  match (splitSlash p).reverse with
  | [] => []
  | s :: _ => s

/-- Model of node `path.extname`: the suffix of the final segment from its last
dot, empty when there is no dot or the dot is the segment's first character. -/
def extname (p : Str) : Str :=
  let b := lastSeg p
  let r := spanP (fun c => !(c == '.')) b.reverse
  match r.2 with
  | [] => []
  | _ :: pre => if pre == ([] : Str) then [] else '.' :: r.1.reverse

/-- Model of node `path.dirname` for an absolute path. -/
def dirname (p : Str) : Str :=
  match (splitSlash (normAbs p)).reverse with
  | [] => str "/"
  | _ :: rest =>
    match rest.reverse with
    | [] => str "/"
    | [_] => str "/"
    | ss => joinSegs ss

/-- Model of node `path.basename(p, ext)`. -/
def basenameExt (p ext : Str) : Str :=
  let b := lastSeg p
  if isSufOf ext b && !(ext == ([] : Str)) && !(b == ext) then b.take (b.length - ext.length) else b

/-- The source's `resolvedPath.replace(/\.(js|mjs)$/, '')`. -/
def stripJsMjs (p : Str) : Str :=
  if isSufOf (str ".mjs") p then p.take (p.length - 4)
  else if isSufOf (str ".js") p then p.take (p.length - 3)
  else p

/-- Decimal rendering of a natural number. -/
def natStr (n : Nat) : Str := (Nat.repr n).data

/-- The base64 alphabet in order. -/
def b64Alphabet : Str :=
  str "ABCDEFGHIJKLMNOPQRSTUVWXYZabcdefghijklmnopqrstuvwxyz0123456789+/"

/-- The base64 digit for a 6-bit value. -/
def b64Digit (n : Nat) : Char := b64Alphabet.getD (n % 64) 'A'

/-- Base64 encoding of a byte sequence, with padding; models
`Buffer.from(s).toString('base64')` for ASCII input. -/
def b64Encode : List Nat → Str
  | [] => []
  | [a] =>
    [b64Digit (a / 4), b64Digit (a % 4 * 16), '=', '=']
  | [a, b] =>
    [b64Digit (a / 4), b64Digit (a % 4 * 16 + b / 16), b64Digit (b % 16 * 4), '=']
  | a :: b :: c :: rest =>
    b64Digit (a / 4) :: b64Digit (a % 4 * 16 + b / 16)
      :: b64Digit (b % 16 * 4 + c / 64) :: b64Digit (c % 64) :: b64Encode rest

/-- Bytes of an ASCII string. -/
def strBytes (s : Str) : List Nat := s.map Char.toNat

/-- The inline shim module generated for the UI-runtime specifier
(`transform.ts` lines 163-182), transcribed byte for byte. -/
def glueReact : Str :=
  str "\n      const getReact = () => \x7b\n        const r = globalThis.__FLOAT_REACT__;\n        if (!r) console.error(" ++ [qc] ++ str "[Shim] __FLOAT_REACT__ is missing!" ++ [qc] ++ str ");\n        return r;\n      \x7d;\n      export default globalThis.__FLOAT_REACT__; \n      export const useState = (...args) => getReact()?.useState(...args); \n      export const useMemo = (...args) => getReact()?.useMemo(...args); \n      export const useCallback = (...args) => getReact()?.useCallback(...args); \n      export const useEffect = (...args) => getReact()?.useEffect(...args); \n      export const useContext = (...args) => getReact()?.useContext(...args); \n      export const useReducer = (...args) => getReact()?.useReducer(...args); \n      export const useRef = (...args) => getReact()?.useRef(...args); \n      export const useId = (...args) => getReact()?.useId(...args); \n      export const useLayoutEffect = (...args) => getReact()?.useLayoutEffect(...args); \n      export const createContext = (...args) => getReact()?.createContext(...args); \n      export const createElement = (...args) => getReact()?.createElement(...args); \n      export const Fragment = globalThis.__FLOAT_REACT__?.Fragment;\n      "

/-- The inline shim module generated for the renderer specifier
(`transform.ts` lines 186-190), transcribed byte for byte. -/
def glueReactDom : Str :=
  str "\n      export default globalThis.__FLOAT_REACT_DOM__ || globalThis.__FLOAT_REACT__; \n      export const render = (...args) => globalThis.__FLOAT_REACT_DOM__?.render(...args); \n      export const hydrate = (...args) => globalThis.__FLOAT_REACT_DOM__?.hydrate(...args);\n      "

/-- The data-URL import target substituted for the UI-runtime specifier. -/
def reactShimUrl : Str :=
  str "data:text/javascript;base64," ++ b64Encode (strBytes glueReact)

/-- The data-URL import target substituted for the renderer specifier. -/
def reactDomShimUrl : Str :=
  str "data:text/javascript;base64," ++ b64Encode (strBytes glueReactDom)

/-- One successful match of the `from\s+['"]([^'"]+)['"]` pattern at the head of
a string: the whitespace run, both quote characters, the captured specifier and
the remaining input. -/
structure FromPart where
  ws : Str
  q1 : Char
  spec : Str
  q2 : Char
  rest : Str
  deriving Repr, DecidableEq

/-- The characters consumed by a head match (`match[0]` of the regex). -/
def consumedOf (fp : FromPart) : Str :=
  'f' :: 'r' :: 'o' :: 'm' :: (fp.ws ++ fp.q1 :: (fp.spec ++ [fp.q2]))

/-- The length of `match[0]`. -/
def lenOf (fp : FromPart) : Nat := 4 + fp.ws.length + 1 + fp.spec.length + 1

/-- Attempt to match `from\s+['"]([^'"]+)['"]` at the head of the input. -/
def matchFromAt : Str → Option FromPart
  | 'f' :: 'r' :: 'o' :: 'm' :: rest =>
    match (spanP isWsChar rest).1, (spanP isWsChar rest).2 with
    | [], _ => none
    | _ :: _, c :: rest2 =>
      if isQuoteChar c then
        match (spanP (fun x => !(isQuoteChar x)) rest2).1,
            (spanP (fun x => !(isQuoteChar x)) rest2).2 with
        | [], _ => none
        | _ :: _, c2 :: rest4 =>
          some ⟨(spanP isWsChar rest).1, c, (spanP (fun x => !(isQuoteChar x)) rest2).1,
            c2, rest4⟩
        | _ :: _, [] => none
      else none
    | _ :: _, [] => none
  | _ => none

/-- One match as delivered by `code.matchAll(importRegex)`: its index in the
scanned string, the length of `match[0]`, and the captured specifier. -/
structure FromMatch where
  idx : Nat
  len : Nat
  spec : Str
  deriving Repr, DecidableEq

/-- Left-to-right non-overlapping scan for the import regex, mirroring
`[...code.matchAll(importRegex)]`.  The fuel is instantiated with the length of
the scanned string, which always suffices since every step consumes at least
one character. -/
def scanAux : Nat → Str → Nat → List FromMatch
  | 0, _, _ => []
  | Nat.succ fuel, l, i =>
    match matchFromAt l with
    | some fp => ⟨i, lenOf fp, fp.spec⟩ :: scanAux fuel fp.rest (i + lenOf fp)
    | none =>
      match l with
      | [] => []
      | _ :: cs => scanAux fuel cs (i + 1)

/-- All matches of `from\s+['"]([^'"]+)['"]` in a code string. -/
def scanMatches (code : Str) : List FromMatch := scanAux code.length code 0

/-- The esbuild syntax dialects used by the loader. -/
inductive Loader
  | ts
  | tsx
  | jsx
  | js
  | json
  deriving Repr, DecidableEq

/-- Model of `getLoader` (lines 122-132): extension to dialect, default `ts`. -/
def getLoader (ext : Str) : Loader :=
  if ext == str ".ts" then .ts
  else if ext == str ".tsx" then .tsx
  else if ext == str ".jsx" then .jsx
  else if ext == str ".js" then .js
  else if ext == str ".mjs" then .js
  else if ext == str ".json" then .json
  else .ts

/-- Observable side effects of a pipeline run: transformer invocations,
dynamic imports and file writes. -/
inductive Ev
  | transformEv (file : Str)
  | importEv (file : Str)
  | writeEv (file : Str)
  deriving Repr, DecidableEq

/-- The mutable process state: the filesystem (existence, modification time and
content per path), the in-memory module cache (module id and modification time
per absolute path), the current clock, and the event trace. -/
structure St where
  fsExists : Str → Bool
  fsMtime : Str → Nat
  fsContent : Str → Str
  moduleCache : Str → Option (Nat × Nat)
  now : Nat
  events : List Ev

/-- Record an observable event. -/
def addEv (e : Ev) (st : St) : St := { st with events := e :: st.events }

/-- Model of `fs.writeFileSync`: the file exists afterwards, holds the new
content, and its modification time is the current clock. -/
def fsWrite (p c : Str) (st : St) : St :=
  { st with
    fsExists := fun q => q == p || st.fsExists q
    fsContent := fun q => if q == p then c else st.fsContent q
    fsMtime := fun q => if q == p then st.now else st.fsMtime q
    events := Ev.writeEv p :: st.events }

/-- Model of `fs.unlinkSync` (best effort: no error when missing). -/
def fsUnlink (p : Str) (st : St) : St :=
  { st with fsExists := fun q => if q == p then false else st.fsExists q }

/-- Errors raised inside the import rewriter: exhausted recursion fuel (a
modelling artifact for cyclic graphs), a transformer failure, or a filesystem
error on a missing path. -/
inductive RwErr
  | fuelOut
  | transformErr (msg : Str)
  | ioErr (p : Str)
  deriving Repr, DecidableEq

/-- Model of `fs.readFileSync`: fails on a missing path. -/
def readFile (st : St) (p : Str) : Except RwErr Str :=
  if st.fsExists p then .ok (st.fsContent p) else .error (.ioErr p)

/-- The external collaborators, fixed for a process: node module resolution
scoped to a base directory, `fs.realpathSync`, the esbuild transformer
(loader, diagnostics filename, source), the dynamic-import facility (path,
content), the sha256-prefix fingerprint of a path, the working directory and
the rewriter module's own filesystem location. -/
structure Env where
  resolveBare : Str → Str → Option Str
  realpath : Str → Option Str
  transform : Loader → Str → Str → Except Str Str
  importMod : Str → Str → Except Str Nat
  hashPath : Str → Str
  cwd : Str
  selfPath : Str

/-- Model of node `url.pathToFileURL(p).href` (percent-encoding elided; the
path is resolved against the working directory first). -/
def fileURL (env : Env) (p : Str) : Str := str "file://" ++ pathResolve env.cwd p

/-- Classification of a specifier as the UI runtime or one of its sub-paths
(`importPath === 'react' || importPath.startsWith('react/')`). -/
def isReactSpec (s : Str) : Bool := s == str "react" || isPreOf (str "react/") s

/-- Classification of a specifier as the renderer or one of its sub-paths. -/
def isReactDomSpec (s : Str) : Bool :=
  s == str "react-dom" || isPreOf (str "react-dom/") s

/-- Source files that require the transform-and-cache treatment
(`['.ts', '.tsx', '.jsx'].includes(ext)`). -/
def isTsLike (ext : Str) : Bool :=
  ext == str ".ts" || ext == str ".tsx" || ext == str ".jsx"

/-- The fixed extension list of the relative-specifier probe
(`transform.ts` line 219). -/
def extList : List Str :=
  [str ".tsx", str ".ts", str ".jsx", str ".js", str ".mjs", ([] : Str)]

/-- The probing loop of `transform.ts` lines 220-225: for each extension in
order, try the stripped path with that extension appended, then an `index`
file with that extension inside the path taken as a directory. -/
def tryExts (ex : Str → Bool) (strippedPath resolvedPath : Str) : List Str → Option Str
  | [] => none
  | ext :: rest =>
    let tryPath := strippedPath ++ ext
    if ex tryPath then some tryPath
    else
      let indexPath := pathJoin resolvedPath (str "index" ++ ext)
      if ex indexPath then some indexPath
      else tryExts ex strippedPath resolvedPath rest

/-- Resolution of a relative or workspace-alias specifier by filesystem
probing (`transform.ts` lines 218-225): the resolved path has a trailing
`.js`/`.mjs` stripped before the extension list is probed. -/
def probeRelative (ex : Str → Bool) (resolvedPath : Str) : Option Str :=
  tryExts ex (stripJsMjs resolvedPath) resolvedPath extList

/-- The on-disk cache filename of a dependency, derived from its resolved
absolute path (`dep_` plus a 16-hex-digit fingerprint plus `.mjs`). -/
def cachedFileName (env : Env) (cacheDir resolvedPath : Str) : Str :=
  pathJoin cacheDir (str "dep_" ++ env.hashPath resolvedPath ++ str ".mjs")

/-- The regeneration condition of `transform.ts` line 287:
`!fs.existsSync(cachedFile) || fs.statSync(resolvedPath).mtimeMs >
fs.statSync(cachedFile).mtimeMs`, with the short-circuit evaluation order and
the `statSync` failure on a missing source made explicit. -/
def regenCheck (st : St) (resolvedPath cachedFile : Str) : Except RwErr Bool :=
  if !(st.fsExists cachedFile) then .ok true
  else if !(st.fsExists resolvedPath) then .error (.ioErr resolvedPath)
  else .ok (st.fsMtime resolvedPath > st.fsMtime cachedFile)

/-- Lines 280-313 of the source: turn a resolved path into the final import
target.  A typed/markup source file is transformed, recursively rewritten and
written to its path-keyed cache file unless a valid cache entry exists; the
final target is the file URL of the cache file (or of the resolved path
itself for natively loadable files).  `rw` is the recursive rewrite at lower
fuel; errors of the inner `try` are re-thrown unchanged after the optional
diagnostic dump. -/
def finalizeResolved (rw : Str → Str → St → St × Except RwErr Str) (env : Env)
    (cacheDir : Str) (resolvedPath : Str) (st : St) : St × Except RwErr Str :=
  let fileExt := extname resolvedPath
  if isTsLike fileExt then
    let cachedFile := cachedFileName env cacheDir resolvedPath
    match regenCheck st resolvedPath cachedFile with
    | .error e => (st, .error e)
    | .ok true =>
      match readFile st resolvedPath with
      | .error e => (st, .error e)
      | .ok depSource =>
        let st1 := addEv (.transformEv resolvedPath) st
        match env.transform (getLoader fileExt) resolvedPath depSource with
        | .error m => (st1, .error (.transformErr m))
        | .ok depResult =>
          match rw depResult (dirname resolvedPath) st1 with
          | (st2, .error e) => (st2, .error e)
          | (st2, .ok depCode) =>
            let st3 := fsWrite cachedFile depCode st2
            (st3, .ok (fileURL env cachedFile))
    | .ok false => (st, .ok (fileURL env cachedFile))
  else (st, .ok (fileURL env resolvedPath))

/-- Lift a final import target to the `Option` result of specifier
resolution (`some` = replace the clause). -/
def mapSome (r : St × Except RwErr Str) : St × Except RwErr (Option Str) :=
  (r.1, r.2.map some)

/-- Lines 229-276 of the source: the bare-specifier fallbacks.  A first
resolution that yields a typed/markup file is taken as a workspace dependency;
otherwise a non-relative, non-absolute, non-file-URL specifier is resolved to
its absolute path; resolution failure leaves the clause unmodified (`none`).
The duplicated fallback block at lines 263-276 is extensionally absorbed by
the nested one (same resolver, same guard) and is not repeated here. -/
def bareFallback (rw : Str → Str → St → St × Except RwErr Str) (env : Env)
    (baseDir cacheDir : Str) (importPath : Str) (st : St) :
    St × Except RwErr (Option Str) :=
  match env.resolveBare baseDir importPath with
  | some resolved =>
    if isTsLike (extname resolved) then
      mapSome (finalizeResolved rw env cacheDir resolved st)
    else if !(isPreOf (str ".") importPath) && !(isPreOf (str "/") importPath)
        && !(isPreOf (str "file://") importPath) then
      mapSome (finalizeResolved rw env cacheDir resolved st)
    else (st, .ok none)
  | none => (st, .ok none)

/-- The per-specifier classification and resolution chain of
`transform.ts` lines 146-313, in the source's priority order: UI runtime,
renderer, native platform, framework self (including the legacy alias),
relative/workspace-alias probing, bare fallbacks.  The result is `none` when
the clause is left unmodified. -/
def resolveSpecifier (rw : Str → Str → St → St × Except RwErr Str) (env : Env)
    (baseDir cacheDir : Str) (importPath : Str) (st : St) :
    St × Except RwErr (Option Str) :=
  if isReactSpec importPath then (st, .ok (some reactShimUrl))
  else if isReactDomSpec importPath then (st, .ok (some reactDomShimUrl))
  else if importPath == str "react-native" then
    let resolvedPath :=
      (env.resolveBare baseDir (str "react-native-web")).getD (str "react-native-web")
    mapSome (finalizeResolved rw env cacheDir resolvedPath st)
  else if importPath == str "@float-v/core" || importPath == str "@float-v/lite" then
    let p1 := pathResolve (dirname env.selfPath) (str "../index.js")
    let resolvedPath :=
      if st.fsExists p1 then p1
      else pathResolve (dirname env.selfPath) (str "../index.ts")
    mapSome (finalizeResolved rw env cacheDir resolvedPath st)
  else if isPreOf (str "./") importPath || isPreOf (str "../") importPath
      || isPreOf (str "@/") importPath then
    let resolvedPath0 :=
      if isPreOf (str "@/") importPath then pathResolve env.cwd (importPath.drop 2)
      else pathResolve baseDir importPath
    match probeRelative st.fsExists resolvedPath0 with
    | some p => mapSome (finalizeResolved rw env cacheDir p st)
    | none => bareFallback rw env baseDir cacheDir importPath st
  else bareFallback rw env baseDir cacheDir importPath st

/-- The textual replacement written over a matched clause:
`from '${finalImportPath}'`. -/
def replOf (fin : Str) : Str := str "from " ++ qc :: (fin ++ [qc])

/-- The string surgery of `transform.ts` line 318:
`newCode.slice(0, start) + replacement + newCode.slice(end)`. -/
def spliceAt (code : Str) (start len : Nat) (repl : Str) : Str :=
  code.take start ++ repl ++ code.drop (start + len)

/-- The replacement loop of `rewriteImports` (lines 145-320): each match is
classified and resolved; a resolved clause is spliced over at its original
index shifted by the cumulative offset, and the offset is advanced by the
length difference. -/
def rwLoop (res1 : Str → St → St × Except RwErr (Option Str)) :
    List FromMatch → Str → Int → St → St × Except RwErr Str
  | [], newCode, _, st => (st, .ok newCode)
  | m :: ms, newCode, offset, st =>
    match res1 m.spec st with
    | (st1, .error e) => (st1, .error e)
    | (st1, .ok none) => rwLoop res1 ms newCode offset st1
    | (st1, .ok (some fin)) =>
      let repl := replOf fin
      let start := (Int.ofNat m.idx + offset).toNat
      let newCode1 := spliceAt newCode start m.len repl
      rwLoop res1 ms newCode1 (offset + Int.ofNat repl.length - Int.ofNat m.len) st1

/-- Model of `rewriteImports(code, baseDir, cacheDir)` with explicit recursion fuel:
scan the code for `from` clauses and run the replacement loop; recursive
dependency rewrites run at one unit less fuel. -/
def rewriteImportsF : Nat → Env → Str → Str → Str → St → St × Except RwErr Str
  | 0, _, _, _, _, st => (st, .error .fuelOut)
  | Nat.succ fuel, env, code, baseDir, cacheDir, st =>
    rwLoop
      (resolveSpecifier (fun c b s => rewriteImportsF fuel env c b cacheDir s)
        env baseDir cacheDir)
      (scanMatches code) code 0 st

/-- Structural reference formulation of the same rewrite: walk the code once,
copying unmatched characters verbatim and rendering each matched clause from
its resolution.  Used to state the frame property of the splice loop. -/
def rwChunksF (res1 : Str → St → St × Except RwErr (Option Str)) :
    Nat → Str → St → St × Except RwErr Str
  | 0, l, st =>
    match l with
    | [] => (st, .ok [])
    | _ :: _ => (st, .error .fuelOut)
  | Nat.succ fuel, l, st =>
    match matchFromAt l with
    | some fp =>
      match res1 fp.spec st with
      | (st1, .error e) => (st1, .error e)
      | (st1, .ok none) =>
        let r := rwChunksF res1 fuel fp.rest st1
        (r.1, r.2.map (fun out => consumedOf fp ++ out))
      | (st1, .ok (some fin)) =>
        let r := rwChunksF res1 fuel fp.rest st1
        (r.1, r.2.map (fun out => replOf fin ++ out))
    | none =>
      match l with
      | [] => (st, .ok [])
      | c :: cs =>
        let r := rwChunksF res1 fuel cs st
        (r.1, r.2.map (fun out => c :: out))

/-- The chunked rewrite at its canonical fuel. -/
def rwChunks (res1 : Str → St → St × Except RwErr (Option Str)) (code : Str)
    (st : St) : St × Except RwErr Str :=
  rwChunksF res1 code.length code st

/-- The spec-words formulation of claim C8: only the quoted path token inside
each clause is replaced, the surrounding whitespace and the original quote
characters being preserved. -/
def tokenOnlyChunksF (res1 : Str → St → St × Except RwErr (Option Str)) :
    Nat → Str → St → St × Except RwErr Str
  | 0, l, st =>
    match l with
    | [] => (st, .ok [])
    | _ :: _ => (st, .error .fuelOut)
  | Nat.succ fuel, l, st =>
    match matchFromAt l with
    | some fp =>
      match res1 fp.spec st with
      | (st1, .error e) => (st1, .error e)
      | (st1, .ok none) =>
        let r := tokenOnlyChunksF res1 fuel fp.rest st1
        (r.1, r.2.map (fun out => consumedOf fp ++ out))
      | (st1, .ok (some fin)) =>
        let r := tokenOnlyChunksF res1 fuel fp.rest st1
        (r.1, r.2.map (fun out =>
          'f' :: 'r' :: 'o' :: 'm' :: (fp.ws ++ fp.q1 :: (fin ++ fp.q2 :: out))))
    | none =>
      match l with
      | [] => (st, .ok [])
      | c :: cs =>
        let r := tokenOnlyChunksF res1 fuel cs st
        (r.1, r.2.map (fun out => c :: out))

/-- The token-only rewrite at its canonical fuel. -/
def tokenOnlyRewrite (res1 : Str → St → St × Except RwErr (Option Str))
    (code : Str) (st : St) : St × Except RwErr Str :=
  tokenOnlyChunksF res1 code.length code st

/-- Errors surfaced by `transformFile`. -/
inductive TfErr
  | fileNotFound (p : Str)
  | transformErr (msg : Str)
  | rwFail (e : RwErr)
  | importFail (msg : Str)
  deriving Repr, DecidableEq

/-- The header prepended for the classic JSX transform:
`import React from 'react';` and a newline (`transform.ts` line 91). -/
def reactImportHeader : Str :=
  str "import React from " ++ qc :: (str "react" ++ [qc]) ++ str ";" ++ [Char.ofNat 10]

/-- Lines 90-92 of the source: prepend the runtime import when neither
`import React` nor `import * as React` occurs as a substring of the
transformed code. -/
def injectReactImport (code : Str) : Str :=
  if !(occursIn (str "import React") code) && !(occursIn (str "import * as React") code) then
    reactImportHeader ++ code
  else code

/-- Head match of the stylesheet-import pattern
`import\s+['"][^'"]*\.css['"];?` of `transform.ts` line 98, returning the
input after the consumed match. -/
def matchCssAt : Str → Option Str
  | 'i' :: 'm' :: 'p' :: 'o' :: 'r' :: 't' :: rest =>
    let s1 := spanP isWsChar rest
    match s1.1, s1.2 with
    | [], _ => none
    | _ :: _, c :: rest2 =>
      if isQuoteChar c then
        let s2 := spanP (fun x => !(isQuoteChar x)) rest2
        if isSufOf (str ".css") s2.1 then
          match s2.2 with
          | _ :: rest4 =>
            match rest4 with
            | ';' :: rest5 => some rest5
            | _ => some rest4
          | [] => none
        else none
      else none
    | _ :: _, [] => none
  | _ => none

/-- Global removal of stylesheet imports, scanning left to right. -/
def stripCssF : Nat → Str → Str
  | 0, l => l
  | Nat.succ fuel, l =>
    match matchCssAt l with
    | some rest => stripCssF fuel rest
    | none =>
      match l with
      | [] => []
      | c :: cs => c :: stripCssF fuel cs

/-- Model of the global stylesheet-import removal of line 98. -/
def stripCss (code : Str) : Str := stripCssF code.length code

/-- The code-production phase of `transformFile` (lines 64-98): read the
source, transform it with the dialect of its extension, ensure the
runtime-import convention, rewrite imports against the temp directory, and
strip stylesheet imports. -/
def buildCode (fuel : Nat) (env : Env) (absolutePath tempDir : Str) (st : St) :
    St × Except TfErr Str :=
  let source := st.fsContent absolutePath
  let ext := extname absolutePath
  let st1 := addEv (.transformEv absolutePath) st
  match env.transform (getLoader ext) absolutePath source with
  | .error m => (st1, .error (.transformErr m))
  | .ok tcode =>
    let code1 := injectReactImport tcode
    match rewriteImportsF fuel env code1 (dirname absolutePath) tempDir st1 with
    | (st2, .error e) => (st2, .error (.rwFail e))
    | (st2, .ok code2) => (st2, .ok (stripCss code2))

/-- The cache-miss path of `transformFile` (lines 64-116): build the final
code, materialize it in a uniquely named temporary file, dynamically import
it, record the module handle in the in-memory cache on success, and delete
the temporary file (immediately on failure, deferred on success) unless the
debug-retain flag is set. -/
def transformFileLoad (fuel : Nat) (env : Env) (absolutePath : Str)
    (mtime : Nat) (dbg : Bool) (st : St) : St × Except TfErr Nat :=
  let tempDir := pathJoin (pathJoin env.cwd (str ".float")) (str ".cache")
  let tempFile :=
    pathJoin tempDir
      (basenameExt absolutePath (extname absolutePath) ++ str "_" ++ natStr st.now ++ str ".mjs")
  match buildCode fuel env absolutePath tempDir st with
  | (st2, .error e) => (st2, .error e)
  | (st2, .ok code) =>
    let st3 := fsWrite tempFile code st2
    let st4 := addEv (.importEv tempFile) st3
    match env.importMod tempFile code with
    | .ok m =>
      let st5 :=
        { st4 with
          moduleCache := fun q => if q == absolutePath then some (m, mtime) else st4.moduleCache q }
      let st6 := if dbg then st5 else fsUnlink tempFile st5
      (st6, .ok m)
    | .error msg =>
      let st5 := if dbg then st4 else fsUnlink tempFile st4
      (st5, .error (.importFail msg))

/-- Model of `transformFile` (lines 38-117): existence check, in-memory cache check
keyed by absolute path and modification time, and the load path on a miss.
The `useCache` option is accepted and, as in the source, never consulted. -/
def transformFile (fuel : Nat) (env : Env) (filePath : Str)
    (_useCache dbg : Bool) (st : St) : St × Except TfErr Nat :=
  let absolutePath := if isAbsPath filePath then filePath else pathResolve env.cwd filePath
  if !(st.fsExists absolutePath) then (st, .error (.fileNotFound absolutePath))
  else
    let mtime := st.fsMtime absolutePath
    match st.moduleCache absolutePath with
    | some c =>
      if c.2 == mtime then (st, .ok c.1)
      else transformFileLoad fuel env absolutePath mtime dbg st
    | none => transformFileLoad fuel env absolutePath mtime dbg st

/-- The dependency-lock registry: the resolved UI-runtime and renderer paths. -/
structure LockSt where
  lockedReactPath : Option Str
  lockedReactDOMPath : Option Str
  deriving Repr, DecidableEq

/-- Model of `lockFrameworkDependencies` (lines 24-32): resolve and realpath the UI
runtime, then the renderer, from the project root's resolution scope; the
surrounding `try`/`catch` swallows a failure, keeping every assignment made
before the failing call. -/
def lockFrameworkDependencies (env : Env) (projectRoot : Str) (ls : LockSt) : LockSt :=
  match (env.resolveBare projectRoot (str "react")).bind env.realpath with
  | none => ls
  | some p =>
    let ls1 := { ls with lockedReactPath := some p }
    match (env.resolveBare projectRoot (str "react-dom")).bind env.realpath with
    | none => ls1
    | some q => { ls1 with lockedReactDOMPath := some q }

/-- The console message logged by the shim when the global slot is missing. -/
def shimMissingMsg : Str := str "[Shim] __FLOAT_REACT__ is missing!"

/-- Model of the shim's `getReact` helper: read the global slot, log an error
when it is absent, and return it either way. -/
def getReactModel (R : Type) (slot : Option R) : Option R × List Str :=
  match slot with
  | none => (none, [shimMissingMsg])
  | some r => (some r, [])

/-- Model of one shimmed hook export, `(...args) => getReact()?.useState(...args)`:
the optional chaining makes a missing slot yield `undefined` (here `none`)
without raising, so the `Except` layer (a thrown JS error) is always `ok`. -/
def shimHookCall (R A Args : Type) (slot : Option R) (hook : R → Args → A)
    (args : Args) : Except Str (Option A) × List Str :=
  let g := getReactModel R slot
  match g.1 with
  | none => (.ok none, g.2)
  | some r => (.ok (some (hook r args)), g.2)

/-- The candidate order asserted by claim C1 (the spec's words, not the
source): the literal path first, then the extension list appended to the
path, then the list applied to an `index` file inside the path. -/
def claimedCandidates (resolvedPath : Str) : List Str :=
  resolvedPath :: (extList.map (fun e => resolvedPath ++ e)
    ++ extList.map (fun e => pathJoin resolvedPath (str "index" ++ e)))

/-- First existing candidate in the claimed order (spec-words formulation of
the relative-specifier resolution, to be compared with `probeRelative`). -/
def claimedRelativeResolution (ex : Str → Bool) (resolvedPath : Str) : Option Str :=
  (claimedCandidates resolvedPath).find? ex

/-- The candidate order the source actually probes: for each extension in
turn, the `.js`/`.mjs`-stripped path with the extension appended, then the
`index` file with that extension. -/
def probeCandidates (strippedPath resolvedPath : Str) : List Str :=
  extList.flatMap (fun e => [strippedPath ++ e, pathJoin resolvedPath (str "index" ++ e)])

/-- The recursive rewrite passed to dependency materialization: one unit less
fuel, same cache directory. -/
def rwAt (fuel : Nat) (env : Env) (cacheDir : Str) : Str → Str → St → St × Except RwErr Str :=
  fun c b s => rewriteImportsF fuel env c b cacheDir s

/-- The growth relation every rewrite-level operation respects: files are
never deleted, the event trace only grows, and the in-memory module cache is
untouched. -/
def stEvolves (s s' : St) : Prop :=
  (∀ q, s.fsExists q = true → s'.fsExists q = true)
    ∧ s.events.length ≤ s'.events.length
    ∧ s'.moduleCache = s.moduleCache

/-- A concrete environment for witnesses and counterexamples: an empty
module-resolution scope, an identity transformer and a constant importer. -/
def envA : Env :=
  { resolveBare := fun _ _ => none
    realpath := fun _ => none
    transform := fun _ _ s => .ok s
    importMod := fun _ _ => .ok 1
    hashPath := fun p => p.filter (fun c => !(c == '/'))
    cwd := str "/w"
    selfPath := str "/app/float/dist/build/transform.js" }

/-- A concrete filesystem with one typed entry file and one plain module. -/
def stA : St :=
  { fsExists := fun p => p == str "/w/a.ts" || p == str "/w/x.mjs"
    fsMtime := fun _ => 5
    fsContent := fun p => if p == str "/w/a.ts" then str "export const a = 1;" else []
    moduleCache := fun _ => none
    now := 100
    events := [] }

/-- An environment whose resolution scope holds the UI runtime but not the
renderer (used against the lock registry). -/
def envC7 : Env :=
  { resolveBare := fun _ s => if s == str "react" then some (str "/n/react/index.js") else none
    realpath := fun p => some p
    transform := fun _ _ s => .ok s
    importMod := fun _ _ => .ok 1
    hashPath := fun p => p
    cwd := str "/w"
    selfPath := str "/app/float/dist/build/transform.js" }

/-- The empty-scope environment with a dynamic import that always fails. -/
def envFail : Env :=
  { envA with importMod := fun _ _ => .error (str "boom") }

/-- A cold-cache filesystem: the entry imports a path inside the cache
directory (unresolvable before the first run) and a typed dependency whose
cache file does not exist yet.  The entry already mentions `import React`, so
no header is injected. -/
def stC9cold : St :=
  { fsExists := fun p => p == str "/w/a.ts" || p == str "/w/d.ts"
    fsMtime := fun _ => 5
    fsContent := fun p =>
      if p == str "/w/a.ts" then
        str "// import React\nimport Y from \"./.float/.cache/dep_wd.ts\";\nimport D from \"./d\";"
      else if p == str "/w/d.ts" then str "export const one = 1;" else []
    moduleCache := fun _ => none
    now := 100
    events := [] }

/-- A warm but stale cache: the entry imports the typed dependency `/w/d.ts`
(mtime 5) whose cache file exists with the older mtime 3, so the first run
regenerates it in place and the second run reuses it. -/
def stC9w : St :=
  { fsExists := fun p => p == str "/w/a.ts" || p == str "/w/d.ts"
      || p == str "/cache/dep_wd.ts.mjs"
    fsMtime := fun p => if p == str "/cache/dep_wd.ts.mjs" then 3 else 5
    fsContent := fun p =>
      if p == str "/w/a.ts" then str "// import React\nimport D from \"./d\";"
      else if p == str "/w/d.ts" then str "export const one = 1;" else []
    moduleCache := fun _ => none
    now := 100
    events := [] }

/-- A filesystem holding the typed source `/w/a.ts` (mtime 5) and its
dependency-cache file under `/cache` (mtime 10, hence fresh). -/
def stC3 : St :=
  { fsExists := fun p => p == str "/w/a.ts" || p == str "/cache/dep_wa.ts.mjs"
    fsMtime := fun p => if p == str "/w/a.ts" then 5 else 10
    fsContent := fun p => if p == str "/w/a.ts" then str "export const a = 1;" else []
    moduleCache := fun _ => none
    now := 100
    events := [] }

/-- The probing loop visits, in order, the path-with-extension and
`index`-with-extension candidates of each extension in turn. -/
theorem tryExts_eq_find (ex : Str → Bool) (sp rp : Str) :
    ∀ exts, tryExts ex sp rp exts
      = (exts.flatMap (fun e => [sp ++ e, pathJoin rp (str "index" ++ e)])).find? ex := by
  intro exts
  induction exts with
  | nil => simp [tryExts]
  | cons e rest ih =>
    simp only [tryExts, List.flatMap_cons, List.cons_append, List.nil_append,
      List.find?_cons]
    cases hx : ex (sp ++ e) with
    | true => simp [hx]
    | false =>
      cases hy : ex (pathJoin rp (str "index" ++ e)) with
      | true => simp [hx, hy]
      | false => simp [hx, hy, ih]

/-- C1 (corrected): the rewriter does not try the literal path first; the
probe interleaves path-with-extension and `index`-with-extension candidates
per extension, over the `.js`/`.mjs`-stripped path, with the literal
(empty-extension) candidate probed last.  `probeRelative` equals the first
existing candidate of that interleaved list. -/
theorem C1_probe_order (ex : Str → Bool) (resolvedPath : Str) :
    probeRelative ex resolvedPath
      = (probeCandidates (stripJsMjs resolvedPath) resolvedPath).find? ex := by
  simpa [probeRelative, probeCandidates] using
    tryExts_eq_find ex (stripJsMjs resolvedPath) resolvedPath extList

/-- C1 counterexample: with both the literal path `/b/foo` and
`/b/foo/index.tsx` existing, the claimed order picks the literal path while
the code picks the `index.tsx` candidate. -/
theorem C1_counterexample :
    (fun p => p == str "/b/foo" || p == str "/b/foo/index.tsx") (str "/b/foo") = true
    ∧ probeRelative (fun p => p == str "/b/foo" || p == str "/b/foo/index.tsx")
        (str "/b/foo") = some (str "/b/foo/index.tsx")
    ∧ claimedRelativeResolution (fun p => p == str "/b/foo" || p == str "/b/foo/index.tsx")
        (str "/b/foo") = some (str "/b/foo") := by
  exact ⟨by decide, by decide, by decide⟩

/-- C5 (corrected): the injection is keyed on the absence of the substrings
`import React` and `import * as React`, not on whether the code references
the runtime: the header is prepended exactly when neither substring occurs. -/
theorem C5_inject_iff (code : Str) :
    (occursIn (str "import React") code = false
        ∧ occursIn (str "import * as React") code = false
      → injectReactImport code = reactImportHeader ++ code)
    ∧ (occursIn (str "import React") code = true
        ∨ occursIn (str "import * as React") code = true
      → injectReactImport code = code) := by
  constructor
  · intro h
    simp [injectReactImport, h.1, h.2]
  · intro h
    rcases h with h | h <;> simp [injectReactImport, h]

/-- C5 witness: evaluating the injection on a concrete runtime-free module. -/
theorem C5_witness :
    injectReactImport (str "export const a = 1;")
      = reactImportHeader ++ str "export const a = 1;" :=
  (C5_inject_iff (str "export const a = 1;")).1 ⟨by decide, by decide⟩

/-- C5 counterexample: a module that nowhere references the runtime is still
given the extra import, contradicting the only-when-referenced claim. -/
theorem C5_counterexample :
    occursIn (str "React") (str "export const a = 1;") = false
    ∧ injectReactImport (str "export const a = 1;")
        = reactImportHeader ++ str "export const a = 1;" := by
  exact ⟨by decide, by decide⟩

/-- C7 (corrected): the lock call never raises, but a partial failure is
possible: if resolving the UI runtime fails both fields keep their previous
values, while if only the renderer fails the UI-runtime path is updated and
the renderer path keeps its previous value. -/
theorem C7_lock_cases (env : Env) (root : Str) (ls : LockSt) :
    ((env.resolveBare root (str "react")).bind env.realpath = none →
        lockFrameworkDependencies env root ls = ls)
    ∧ (∀ p, (env.resolveBare root (str "react")).bind env.realpath = some p →
        (env.resolveBare root (str "react-dom")).bind env.realpath = none →
        lockFrameworkDependencies env root ls = { ls with lockedReactPath := some p })
    ∧ (∀ p q, (env.resolveBare root (str "react")).bind env.realpath = some p →
        (env.resolveBare root (str "react-dom")).bind env.realpath = some q →
        lockFrameworkDependencies env root ls = ⟨some p, some q⟩) := by
  refine ⟨fun h => ?_, fun p h1 h2 => ?_, fun p q h1 h2 => ?_⟩ <;>
    simp [lockFrameworkDependencies, *]

/-- C7 witness: a scope resolving the runtime but not the renderer, applied
to the partial-failure case of the lock theorem. -/
theorem C7_witness :
    lockFrameworkDependencies envC7 (str "/proj") ⟨none, none⟩
      = { lockedReactPath := some (str "/n/react/index.js"), lockedReactDOMPath := none } :=
  (C7_lock_cases envC7 (str "/proj") ⟨none, none⟩).2.1 (str "/n/react/index.js")
    (by decide) (by decide)

/-- C7 counterexample: renderer resolution fails, yet the framework lock is
not left unset — the UI-runtime path has been assigned. -/
theorem C7_counterexample :
    envC7.resolveBare (str "/proj") (str "react-dom") = none
    ∧ ¬ (lockFrameworkDependencies envC7 (str "/proj") ⟨none, none⟩).lockedReactPath = none := by
  exact ⟨by decide, by decide⟩

/-- C6 (corrected): the native-platform specifier is never passed through
as-is.  When the polyfill resolves (to a natively loadable file) the clause
becomes the file URL of the resolved path; when resolution fails the literal
string `react-native-web` is kept as the resolved path and the clause becomes
its file URL (the string resolved against the working directory), deferring
the failure to load time. -/
theorem C6_native_fallback (rw : Str → Str → St → St × Except RwErr Str)
    (env : Env) (b c : Str) (st : St) :
    (env.resolveBare b (str "react-native-web") = none →
        resolveSpecifier rw env b c (str "react-native") st
          = (st, .ok (some (fileURL env (str "react-native-web")))))
    ∧ (∀ p, env.resolveBare b (str "react-native-web") = some p →
        isTsLike (extname p) = false →
        resolveSpecifier rw env b c (str "react-native") st
          = (st, .ok (some (fileURL env p)))) := by
  have h1 : isReactSpec (str "react-native") = false := by decide
  have h2 : isReactDomSpec (str "react-native") = false := by decide
  have h3 : isTsLike (extname (str "react-native-web")) = false := by decide
  constructor
  · intro h
    simp [resolveSpecifier, h1, h2, h, finalizeResolved, h3, mapSome, Except.map]
  · intro p h hp
    simp [resolveSpecifier, h1, h2, h, finalizeResolved, hp, mapSome, Except.map]

/-- C6 witness: the fallback case of the native-platform resolution applied
to the empty resolution scope. -/
theorem C6_witness :
    resolveSpecifier (rwAt 1 envA (str "/w/.float/.cache")) envA (str "/w")
        (str "/w/.float/.cache") (str "react-native") stA
      = (stA, .ok (some (fileURL envA (str "react-native-web")))) :=
  (C6_native_fallback (rwAt 1 envA (str "/w/.float/.cache")) envA (str "/w")
    (str "/w/.float/.cache") stA).1 (by decide)

/-- C6 counterexample: with the polyfill unresolvable, the rewritten output
is not the input left as-is — the clause is rewritten to a file URL under the
working directory. -/
theorem C6_counterexample :
    envA.resolveBare (str "/w") (str "react-native-web") = none
    ∧ (rewriteImportsF 2 envA (str "import X from " ++ dq :: (str "react-native" ++ [dq]))
          (str "/w") (str "/w/.float/.cache") stA).2
        = Except.ok (str "import X from " ++ qc :: (str "file:///w/react-native-web" ++ [qc]))
    ∧ ¬ (str "import X from " ++ qc :: (str "file:///w/react-native-web" ++ [qc])
          = str "import X from " ++ dq :: (str "react-native" ++ [dq])) := by
  exact ⟨by decide, rfl, by decide⟩

/-- C2 (confirmed): a UI-runtime specifier (the package or any sub-path) is
replaced, with no state change, by the inline data-URL shim module; the
substituted specifier is itself no UI-runtime specifier; on a concrete import
clause the full rewriter substitutes the shim in place; and a shimmed hook
invoked with the global slot missing logs the shim error and returns
`undefined` (`none`) without throwing, while a populated slot forwards the
call to the shared runtime instance. -/
theorem C2_react_shim :
    (∀ (rw : Str → Str → St → St × Except RwErr Str) (env : Env) (b c spec : Str) (st : St),
        isReactSpec spec = true →
        resolveSpecifier rw env b c spec st = (st, .ok (some reactShimUrl)))
    ∧ isReactSpec reactShimUrl = false
    ∧ isPreOf (str "data:text/javascript;base64,") reactShimUrl = true
    ∧ (∀ (fuel : Nat) (env : Env) (b c : Str) (st : St),
        rewriteImportsF (fuel + 1) env
            (str "import React from " ++ dq :: (str "react" ++ [dq]) ++ str ";") b c st
          = (st, .ok (str "import React from " ++ qc :: (reactShimUrl ++ [qc]) ++ str ";")))
    ∧ (∀ (R A Args : Type) (hook : R → Args → A) (args : Args),
        shimHookCall R A Args none hook args = (.ok none, [shimMissingMsg]))
    ∧ (∀ (R A Args : Type) (r : R) (hook : R → Args → A) (args : Args),
        shimHookCall R A Args (some r) hook args = (.ok (some (hook r args)), [])) := by
  refine ⟨fun rw env b c spec st h => ?_, by decide, by decide,
    fun fuel env b c st => ?_, fun R A Args hook args => rfl,
    fun R A Args r hook args => rfl⟩
  · simp [resolveSpecifier, h]
  · rfl

/-- C2 witness: the shim substitution evaluated at the concrete specifier
`react`. -/
theorem C2_witness :
    resolveSpecifier (rwAt 1 envA (str "/w/.float/.cache")) envA (str "/w")
        (str "/w/.float/.cache") (str "react") stA
      = (stA, .ok (some reactShimUrl)) :=
  C2_react_shim.1 (rwAt 1 envA (str "/w/.float/.cache")) envA (str "/w")
    (str "/w/.float/.cache") (str "react") stA (by decide)

/-- Reflexivity of the growth relation. -/
theorem stEvolves_refl (s : St) : stEvolves s s :=
  ⟨fun _ h => h, le_refl _, rfl⟩

/-- Transitivity of the growth relation. -/
theorem stEvolves_trans {a b c : St} (h1 : stEvolves a b) (h2 : stEvolves b c) :
    stEvolves a c :=
  ⟨fun q hq => h2.1 q (h1.1 q hq), le_trans h1.2.1 h2.2.1, h2.2.2.trans h1.2.2⟩

/-- Recording an event only grows the state. -/
theorem addEv_evolves (e : Ev) (s : St) : stEvolves s (addEv e s) :=
  ⟨fun _ h => h, Nat.le_succ _, rfl⟩

/-- Writing a file only grows the state. -/
theorem fsWrite_evolves (p c : Str) (s : St) : stEvolves s (fsWrite p c s) := by
  refine ⟨fun q hq => ?_, Nat.le_succ _, rfl⟩
  simp [fsWrite, hq]

/-- The state component of `mapSome` is that of its argument. -/
theorem mapSome_fst (r : St × Except RwErr Str) : (mapSome r).1 = r.1 := rfl

/-- Dependency materialization respects the growth relation whenever the
recursive rewrite does. -/
theorem finalizeResolved_evolves (rw : Str → Str → St → St × Except RwErr Str)
    (env : Env) (c p : Str)
    (hrw : ∀ cd bd s, stEvolves s (rw cd bd s).1) (st : St) :
    stEvolves st (finalizeResolved rw env c p st).1 := by
  unfold finalizeResolved
  cases htl : isTsLike (extname p) with
  | false => simp only [htl, Bool.false_eq_true, if_false]; exact stEvolves_refl st
  | true =>
    simp only [htl, if_true]
    rcases hr : regenCheck st p (cachedFileName env c p) with e | b
    · simp only [hr]; exact stEvolves_refl st
    · cases b with
      | false => simp only [hr]; exact stEvolves_refl st
      | true =>
        simp only [hr]
        rcases hf : readFile st p with e | src
        · simp only [hf]; exact stEvolves_refl st
        · simp only [hf]
          rcases htr : env.transform (getLoader (extname p)) p src with m | res
          · simp only [htr]; exact addEv_evolves _ _
          · simp only [htr]
            rcases hrw2 : rw res (dirname p) (addEv (Ev.transformEv p) st) with ⟨st2, r⟩
            have h2 := hrw res (dirname p) (addEv (Ev.transformEv p) st)
            rw [hrw2] at h2
            cases r with
            | error e =>
              simp only [hrw2]
              exact stEvolves_trans (addEv_evolves _ _) h2
            | ok depCode =>
              simp only [hrw2]
              exact stEvolves_trans (addEv_evolves _ _)
                (stEvolves_trans h2 (fsWrite_evolves _ _ _))

/-- The bare-specifier fallbacks respect the growth relation. -/
theorem bareFallback_evolves (rw : Str → Str → St → St × Except RwErr Str)
    (env : Env) (b c p : Str)
    (hrw : ∀ cd bd s, stEvolves s (rw cd bd s).1) (st : St) :
    stEvolves st (bareFallback rw env b c p st).1 := by
  unfold bareFallback
  split
  · split
    · exact finalizeResolved_evolves rw env c _ hrw st
    · split
      · exact finalizeResolved_evolves rw env c _ hrw st
      · exact stEvolves_refl st
  · exact stEvolves_refl st

/-- Specifier resolution respects the growth relation. -/
theorem resolveSpecifier_evolves (rw : Str → Str → St → St × Except RwErr Str)
    (env : Env) (b c p : Str)
    (hrw : ∀ cd bd s, stEvolves s (rw cd bd s).1) (st : St) :
    stEvolves st (resolveSpecifier rw env b c p st).1 := by
  have hfin : ∀ q, stEvolves st (mapSome (finalizeResolved rw env c q st)).1 := by
    intro q
    rw [mapSome_fst]
    exact finalizeResolved_evolves rw env c q hrw st
  have hbare : stEvolves st (bareFallback rw env b c p st).1 :=
    bareFallback_evolves rw env b c p hrw st
  unfold resolveSpecifier
  split
  · exact stEvolves_refl st
  · split
    · exact stEvolves_refl st
    · split
      · exact hfin _
      · split
        · exact hfin _
        · split
          · split
            · dsimp only
              split
              · exact hfin _
              · exact hbare
            · dsimp only
              split
              · exact hfin _
              · exact hbare
          · exact hbare

/-- The replacement loop respects the growth relation. -/
theorem rwLoop_evolves (res1 : Str → St → St × Except RwErr (Option Str))
    (h1 : ∀ spec s, stEvolves s (res1 spec s).1) :
    ∀ (ms : List FromMatch) (nc : Str) (off : Int) (st : St),
      stEvolves st (rwLoop res1 ms nc off st).1 := by
  intro ms
  induction ms with
  | nil => intro nc off st; exact stEvolves_refl st
  | cons m ms ih =>
    intro nc off st
    have hm := h1 m.spec st
    unfold rwLoop
    split
    · rename_i st1 e h2
      rw [h2] at hm
      exact hm
    · rename_i st1 h2
      rw [h2] at hm
      exact stEvolves_trans hm (ih _ _ _)
    · rename_i st1 fin h2
      rw [h2] at hm
      exact stEvolves_trans hm (ih _ _ _)

/-- The whole rewriter respects the growth relation: no file is deleted, the
event trace only grows, the module cache is untouched. -/
theorem rewriteImportsF_evolves :
    ∀ (fuel : Nat) (env : Env) (code b c : Str) (st : St),
      stEvolves st (rewriteImportsF fuel env code b c st).1 := by
  intro fuel
  induction fuel with
  | zero => intro env code b c st; exact stEvolves_refl st
  | succ fuel ih =>
    intro env code b c st
    exact rwLoop_evolves _
      (fun spec s => resolveSpecifier_evolves _ env b c spec
        (fun cd bd s2 => ih env cd bd c s2) s) (scanMatches code) code 0 st

/-- A false regeneration condition evaluates as such. -/
theorem regenCheck_reuse (st : St) (p cf : Str) (h1 : st.fsExists cf = true)
    (hsrc : st.fsExists p = true) (h2 : st.fsMtime p ≤ st.fsMtime cf) :
    regenCheck st p cf = .ok false := by
  unfold regenCheck
  simp [h1, hsrc]
  omega

/-- A true regeneration condition evaluates as such (existing source). -/
theorem regenCheck_regen (st : St) (p cf : Str)
    (hsrc : st.fsExists p = true)
    (h : st.fsExists cf = false ∨ st.fsMtime cf < st.fsMtime p) :
    regenCheck st p cf = .ok true := by
  unfold regenCheck
  rcases h with h | h
  · simp [h]
  · rcases hcf : st.fsExists cf with _ | _
    · simp [hcf]
    · simp [hcf, hsrc]
      omega

/-- C3 (confirmed): for an existing typed/markup dependency, materialization
returns the cache file untouched (identical state, same path-keyed target) if
and only if the cache file exists with modification time at least the
source's; otherwise any successful materialization has re-transformed the
dependency and overwritten the same path-keyed cache file in place. -/
theorem C3_dep_cache (fuel : Nat) (env : Env) (c p : Str) (st : St)
    (hts : isTsLike (extname p) = true) (hsrc : st.fsExists p = true) :
    (finalizeResolved (rwAt fuel env c) env c p st
        = (st, .ok (fileURL env (cachedFileName env c p)))
      ↔ (st.fsExists (cachedFileName env c p) = true
          ∧ st.fsMtime p ≤ st.fsMtime (cachedFileName env c p)))
    ∧ (st.fsExists (cachedFileName env c p) = false
        ∨ st.fsMtime (cachedFileName env c p) < st.fsMtime p →
      ∀ st2 out, finalizeResolved (rwAt fuel env c) env c p st = (st2, .ok out) →
        out = fileURL env (cachedFileName env c p)
        ∧ ∃ dc st1, st2 = fsWrite (cachedFileName env c p) dc st1) := by
  constructor
  · constructor
    · intro heq
      by_contra hcond
      have hcond2 : st.fsExists (cachedFileName env c p) = false
          ∨ st.fsMtime (cachedFileName env c p) < st.fsMtime p := by
        rcases hx : st.fsExists (cachedFileName env c p) with _ | _
        · exact Or.inl rfl
        · refine Or.inr ?_
          by_contra hlt
          exact hcond ⟨hx, by omega⟩
      have hrg := regenCheck_regen st p (cachedFileName env c p) hsrc hcond2
      unfold finalizeResolved at heq
      simp only [hts, if_true, hrg, readFile, hsrc] at heq
      rcases htr : env.transform (getLoader (extname p)) p (st.fsContent p) with m | res
      · simp only [htr] at heq
        rw [Prod.mk.injEq] at heq
        exact absurd heq.2 (by simp)
      · simp only [htr] at heq
        rcases hrw2 : rwAt fuel env c res (dirname p) (addEv (Ev.transformEv p) st)
          with ⟨st2, r⟩
        have hev := rewriteImportsF_evolves fuel env res (dirname p) c
          (addEv (Ev.transformEv p) st)
        have hrw3 : rewriteImportsF fuel env res (dirname p) c
            (addEv (Ev.transformEv p) st) = (st2, r) := hrw2
        rw [hrw3] at hev
        cases r with
        | error e =>
          simp only [hrw2] at heq
          rw [Prod.mk.injEq] at heq
          exact absurd heq.2 (by simp)
        | ok dc =>
          simp only [hrw2] at heq
          rw [Prod.mk.injEq] at heq
          have hst := heq.1
          have hlen := congrArg (fun s => s.events.length) hst
          simp only [fsWrite, addEv] at hlen hev
          simp only [List.length_cons] at hlen
          have := hev.2.1
          simp only [List.length_cons] at this
          omega
    · intro hcond
      have hrg := regenCheck_reuse st p (cachedFileName env c p) hcond.1 hsrc hcond.2
      unfold finalizeResolved
      simp [hts, hrg]
  · intro hcond st2 out heq
    have hrg := regenCheck_regen st p (cachedFileName env c p) hsrc hcond
    unfold finalizeResolved at heq
    simp only [hts, if_true, hrg, readFile, hsrc] at heq
    rcases htr : env.transform (getLoader (extname p)) p (st.fsContent p) with m | res
    · simp only [htr] at heq
      rw [Prod.mk.injEq] at heq
      exact absurd heq.2 (by simp)
    · simp only [htr] at heq
      rcases hrw2 : rwAt fuel env c res (dirname p) (addEv (Ev.transformEv p) st)
        with ⟨st1, r⟩
      cases r with
      | error e =>
        simp only [hrw2] at heq
        rw [Prod.mk.injEq] at heq
        exact absurd heq.2 (by simp)
      | ok dc =>
        simp only [hrw2] at heq
        rw [Prod.mk.injEq] at heq
        have hout : out = fileURL env (cachedFileName env c p) := by
          have := heq.2
          simp only [Except.ok.injEq] at this
          exact this.symm
        exact ⟨hout, dc, st1, heq.1.symm⟩

/-- C3 witness: a fresh cache entry (cache mtime 10 ≥ source mtime 5) is
reused with no state change. -/
theorem C3_witness :
    finalizeResolved (rwAt 1 envA (str "/cache")) envA (str "/cache") (str "/w/a.ts") stC3
      = (stC3, .ok (fileURL envA (cachedFileName envA (str "/cache") (str "/w/a.ts")))) :=
  (C3_dep_cache 1 envA (str "/cache") (str "/w/a.ts") stC3 (by decide) (by decide)).1.mpr
    ⟨by decide, by decide⟩

/-- The module cache after the code-production phase is that of the initial
state: nothing in the rewrite path touches it. -/
theorem buildCode_mc (fuel : Nat) (env : Env) (p td : Str) (st st2 : St)
    (r : Except TfErr Str) (h : buildCode fuel env p td st = (st2, r)) :
    st2.moduleCache = st.moduleCache := by
  unfold buildCode at h
  rcases htr : env.transform (getLoader (extname p)) p (st.fsContent p) with m | tc
  · simp only [htr] at h
    rw [Prod.mk.injEq] at h
    rw [← h.1]
    rfl
  · simp only [htr] at h
    rcases hrw : rewriteImportsF fuel env (injectReactImport tc) (dirname p) td
        (addEv (Ev.transformEv p) st) with ⟨st3, r3⟩
    have hev := rewriteImportsF_evolves fuel env (injectReactImport tc) (dirname p) td
      (addEv (Ev.transformEv p) st)
    rw [hrw] at hev
    cases r3 with
    | error e =>
      simp only [hrw] at h
      rw [Prod.mk.injEq] at h
      rw [← h.1]
      exact hev.2.2
    | ok c2 =>
      simp only [hrw] at h
      rw [Prod.mk.injEq] at h
      rw [← h.1]
      exact hev.2.2

/-- An error from the code-production phase is never an import failure. -/
theorem buildCode_no_importFail (fuel : Nat) (env : Env) (p td : Str) (st st2 : St)
    (x : TfErr) (h : buildCode fuel env p td st = (st2, .error x)) :
    (∃ msg, x = .transformErr msg) ∨ (∃ er, x = .rwFail er) := by
  unfold buildCode at h
  rcases htr : env.transform (getLoader (extname p)) p (st.fsContent p) with m | tc
  · simp only [htr] at h
    rw [Prod.mk.injEq] at h
    have := h.2
    simp only [Except.error.injEq] at this
    exact Or.inl ⟨m, this.symm⟩
  · simp only [htr] at h
    rcases hrw : rewriteImportsF fuel env (injectReactImport tc) (dirname p) td
        (addEv (Ev.transformEv p) st) with ⟨st3, r3⟩
    cases r3 with
    | error e =>
      simp only [hrw] at h
      rw [Prod.mk.injEq] at h
      have := h.2
      simp only [Except.error.injEq] at this
      exact Or.inr ⟨e, this.symm⟩
    | ok c2 =>
      simp only [hrw] at h
      rw [Prod.mk.injEq] at h
      exact absurd h.2 (by simp)

/-- A successful load records the module handle under the absolute path with
the modification time it was loaded at. -/
theorem transformFileLoad_caches (fuel : Nat) (env : Env) (abs : Str) (mt : Nat)
    (d : Bool) (st st1 : St) (m : Nat)
    (h : transformFileLoad fuel env abs mt d st = (st1, .ok m)) :
    st1.moduleCache abs = some (m, mt) := by
  unfold transformFileLoad at h
  rcases hb : buildCode fuel env abs
      (pathJoin (pathJoin env.cwd (str ".float")) (str ".cache")) st with ⟨st2, rb⟩
  cases rb with
  | error e =>
    simp only [hb] at h
    rw [Prod.mk.injEq] at h
    exact absurd h.2 (by simp)
  | ok code =>
    simp only [hb] at h
    rcases him : env.importMod
        (pathJoin (pathJoin (pathJoin env.cwd (str ".float")) (str ".cache"))
          (basenameExt abs (extname abs) ++ str "_" ++ natStr st.now ++ str ".mjs")) code
      with msg | mm
    · simp only [him] at h
      rw [Prod.mk.injEq] at h
      exact absurd h.2 (by simp)
    · simp only [him] at h
      rw [Prod.mk.injEq] at h
      have hm : mm = m := by
        have := h.2
        simp only [Except.ok.injEq] at this
        exact this
      rw [← h.1]
      cases d with
      | true => simp [hm]
      | false => simp [fsUnlink, hm]

/-- C4 (confirmed): after a successful load, a second `transformFile` call on
the same path with an unchanged modification time returns the identical
cached module handle and the identical state — no re-transform, no re-import,
no new events. -/
theorem C4_memo_hit (fuel : Nat) (env : Env) (fp abs : Str) (u d : Bool)
    (st st1 : St) (m : Nat)
    (hdef : (if isAbsPath fp then fp else pathResolve env.cwd fp) = abs)
    (h1 : transformFile fuel env fp u d st = (st1, .ok m))
    (hex : st1.fsExists abs = true)
    (hmt : st1.fsMtime abs = st.fsMtime abs) :
    transformFile fuel env fp u d st1 = (st1, .ok m) := by
  have hcache : st1.moduleCache abs = some (m, st.fsMtime abs) := by
    unfold transformFile at h1
    rw [hdef] at h1
    rcases hex0 : st.fsExists abs with _ | _
    · simp only [hex0] at h1
      rw [Prod.mk.injEq] at h1
      exact absurd h1.2 (by simp)
    · simp only [hex0, Bool.not_true, Bool.false_eq_true, if_false] at h1
      rcases hmc : st.moduleCache abs with _ | c
      · simp only [hmc] at h1
        exact transformFileLoad_caches _ _ _ _ _ _ _ _ h1
      · simp only [hmc] at h1
        rcases hbe : c.2 == st.fsMtime abs with _ | _
        · simp only [hbe, Bool.false_eq_true, if_false] at h1
          exact transformFileLoad_caches _ _ _ _ _ _ _ _ h1
        · simp only [hbe, if_true] at h1
          rw [Prod.mk.injEq] at h1
          have hmeq : c.2 = st.fsMtime abs := by simpa using hbe
          have hm1 : c.1 = m := by
            have := h1.2
            simp only [Except.ok.injEq] at this
            exact this
          rw [← h1.1, hmc, ← hm1, ← hmeq]
  unfold transformFile
  rw [hdef]
  simp [hex, hcache, hmt]

/-- C10 (confirmed): whenever `transformFile` surfaces an import failure, the
in-memory module cache is unchanged and the surfaced error is exactly the
error the dynamic import reported. -/
theorem C10_import_error (fuel : Nat) (env : Env) (fp : Str) (u d : Bool)
    (st st2 : St) (e : Str)
    (h : transformFile fuel env fp u d st = (st2, .error (.importFail e))) :
    st2.moduleCache = st.moduleCache
    ∧ ∃ tf c, env.importMod tf c = .error e := by
  unfold transformFile at h
  rcases hex0 : st.fsExists (if isAbsPath fp then fp else pathResolve env.cwd fp)
    with _ | _
  · simp only [hex0] at h
    rw [Prod.mk.injEq] at h
    exact absurd h.2 (by simp)
  · simp only [hex0, Bool.not_true, Bool.false_eq_true, if_false] at h
    have hload : ∀ mt st0, st0.moduleCache = st.moduleCache →
        transformFileLoad fuel env (if isAbsPath fp then fp else pathResolve env.cwd fp)
            mt d st0 = (st2, .error (.importFail e)) →
        st2.moduleCache = st.moduleCache ∧ ∃ tf c, env.importMod tf c = .error e := by
      intro mt st0 hmc0 hl
      unfold transformFileLoad at hl
      rcases hb : buildCode fuel env (if isAbsPath fp then fp else pathResolve env.cwd fp)
          (pathJoin (pathJoin env.cwd (str ".float")) (str ".cache")) st0 with ⟨stb, rb⟩
      cases rb with
      | error x =>
        simp only [hb] at hl
        rw [Prod.mk.injEq] at hl
        have := hl.2
        simp only [Except.error.injEq] at this
        rcases buildCode_no_importFail _ _ _ _ _ _ _ hb with ⟨msg, hx⟩ | ⟨er, hx⟩ <;>
          simp [hx] at this
      | ok code =>
        simp only [hb] at hl
        rcases him : env.importMod
            (pathJoin (pathJoin (pathJoin env.cwd (str ".float")) (str ".cache"))
              (basenameExt (if isAbsPath fp then fp else pathResolve env.cwd fp)
                  (extname (if isAbsPath fp then fp else pathResolve env.cwd fp))
                ++ str "_" ++ natStr st0.now ++ str ".mjs")) code
          with msg | mm
        · simp only [him] at hl
          rw [Prod.mk.injEq] at hl
          have hmsg : msg = e := by
            have := hl.2
            simp only [Except.error.injEq, TfErr.importFail.injEq] at this
            exact this
          constructor
          · rw [← hl.1]
            have hmcb := buildCode_mc _ _ _ _ _ _ _ hb
            cases d with
            | true =>
              simp only [if_true]
              rw [show (addEv (Ev.importEv _) (fsWrite _ code stb)).moduleCache
                  = stb.moduleCache from rfl]
              rw [hmcb, hmc0]
            | false =>
              simp only [Bool.false_eq_true, if_false]
              rw [show (fsUnlink _ (addEv (Ev.importEv _) (fsWrite _ code stb))).moduleCache
                  = stb.moduleCache from rfl]
              rw [hmcb, hmc0]
          · exact ⟨_, code, hmsg ▸ him⟩
        · simp only [him] at hl
          rw [Prod.mk.injEq] at hl
          exact absurd hl.2 (by simp)
    rcases hmc : st.moduleCache (if isAbsPath fp then fp else pathResolve env.cwd fp)
      with _ | c
    · simp only [hmc] at h
      exact hload _ st rfl h
    · simp only [hmc] at h
      rcases hbe : c.2 == st.fsMtime (if isAbsPath fp then fp else pathResolve env.cwd fp)
        with _ | _
      · simp only [hbe, Bool.false_eq_true, if_false] at h
        exact hload _ st rfl h
      · simp only [hbe, if_true] at h
        rw [Prod.mk.injEq] at h
        exact absurd h.2 (by simp)

/-- C4 witness: a concrete successful load of `/w/a.ts`, followed by a second
call on the resulting state, returns the same handle and the same state. -/
theorem C4_witness :
    transformFile 2 envA (str "/w/a.ts") true false
        ((transformFile 2 envA (str "/w/a.ts") true false stA).1)
      = ((transformFile 2 envA (str "/w/a.ts") true false stA).1, Except.ok 1) := by
  have h2 : (transformFile 2 envA (str "/w/a.ts") true false stA).2 = Except.ok 1 := by
    rfl
  exact C4_memo_hit 2 envA (str "/w/a.ts") (str "/w/a.ts") true false stA
    ((transformFile 2 envA (str "/w/a.ts") true false stA).1) 1 rfl
    (by rw [← h2]) (by decide) (by decide)

/-- C10 witness: a concrete run whose dynamic import fails leaves the module
cache unchanged and surfaces the importer's own error. -/
theorem C10_witness :
    ((transformFile 2 envFail (str "/w/a.ts") true false stA).1).moduleCache
        = stA.moduleCache
    ∧ ∃ tf c, envFail.importMod tf c = .error (str "boom") := by
  have h2 : (transformFile 2 envFail (str "/w/a.ts") true false stA).2
      = Except.error (TfErr.importFail (str "boom")) := by rfl
  exact C10_import_error 2 envFail (str "/w/a.ts") true false stA
    ((transformFile 2 envFail (str "/w/a.ts") true false stA).1) (str "boom")
    (by rw [← h2])

/-- A span splits its input into the matched prefix and the rest. -/
theorem spanP_append (p : Char → Bool) : ∀ l, (spanP p l).1 ++ (spanP p l).2 = l := by
  intro l
  induction l with
  | nil => rfl
  | cons c cs ih =>
    by_cases h : p c
    · simp [spanP, h, ih]
    · simp [spanP, h]

/-- The value `match[0].length` is the length of the consumed characters. -/
theorem lenOf_consumed (fp : FromPart) : (consumedOf fp).length = lenOf fp := by
  simp [consumedOf, lenOf, List.length_append]
  omega

/-- A head match consumes a nonempty prefix. -/
theorem lenOf_pos (fp : FromPart) : 1 ≤ lenOf fp := by
  simp [lenOf]

/-- A successful head match decomposes the input into the consumed clause and
the rest. -/
theorem matchFromAt_decomp : ∀ (l : Str) (fp : FromPart),
    matchFromAt l = some fp → l = consumedOf fp ++ fp.rest := by
  intro l fp h
  unfold matchFromAt at h
  split at h
  · rename_i rest
    have hws := spanP_append isWsChar rest
    split at h
    · exact absurd h (by simp)
    · rename_i w ws c rest2 hw1 hw2
      split at h
      · have hsp := spanP_append (fun x => !(isQuoteChar x)) rest2
        split at h
        · exact absurd h (by simp)
        · rename_i s sp c2 rest4 hs1 hs2
          simp only [Option.some.injEq] at h
          subst h
          have hrest2 : rest2
              = (spanP (fun x => !(isQuoteChar x)) rest2).1 ++ c2 :: rest4 := by
            conv_lhs => rw [← hsp]
            rw [hs2]
          have hrest : rest = (spanP isWsChar rest).1 ++ c :: rest2 := by
            conv_lhs => rw [← hws]
            rw [hw2]
          simp only [consumedOf]
          conv_lhs => rw [hrest, hrest2]
          simp
        · exact absurd h (by simp)
      · exact absurd h (by simp)
    · exact absurd h (by simp)
  · exact absurd h (by simp)

/-- The splice loop over the scanned matches equals the one-pass chunk
rewrite: unmatched characters are copied verbatim, each resolved clause is
replaced whole, each skipped clause is kept whole, and the cumulative offset
arithmetic lands every replacement exactly on its clause. -/
theorem rwLoop_eq_chunks (res1 : Str → St → St × Except RwErr (Option Str)) :
    ∀ (fuel : Nat) (l : Str) (st : St) (pre out : Str), l.length ≤ fuel →
      rwLoop res1 (scanAux fuel l pre.length) (out ++ l)
          ((out.length : Int) - (pre.length : Int)) st
        = ((rwChunksF res1 fuel l st).1,
            (rwChunksF res1 fuel l st).2.map (fun t => out ++ t)) := by
  intro fuel
  induction fuel with
  | zero =>
    intro l st pre out hl
    have hnil : l = [] := List.eq_nil_of_length_eq_zero (Nat.le_zero.mp hl)
    subst hnil
    simp [scanAux, rwLoop, rwChunksF, Except.map]
  | succ fuel ih =>
    intro l st pre out hl
    rcases hm : matchFromAt l with _ | fp
    · cases l with
      | nil => simp [scanAux, hm, rwLoop, rwChunksF, Except.map]
      | cons c cs =>
        simp only [scanAux, hm]
        rw [show pre.length + 1 = (pre ++ [c]).length from by simp]
        rw [show out ++ c :: cs = (out ++ [c]) ++ cs from by simp]
        rw [show ((out.length : Int) - (pre.length : Int))
            = (((out ++ [c]).length : Int) - (((pre ++ [c]).length : Int))) from by
          simp only [List.length_append, List.length_cons, List.length_nil]
          push_cast
          omega]
        rw [ih cs st (pre ++ [c]) (out ++ [c]) (by simpa using hl)]
        simp only [rwChunksF, hm]
        rcases hr : rwChunksF res1 fuel cs st with ⟨st2, r2⟩
        cases r2 with
        | error e => simp [Except.map]
        | ok t => simp [Except.map]
    · have hdec := matchFromAt_decomp l fp hm
      have hrest : fp.rest.length ≤ fuel := by
        have h1 := lenOf_pos fp
        have h2 : l.length = (consumedOf fp).length + fp.rest.length := by
          rw [hdec]; simp
        rw [lenOf_consumed] at h2
        omega
      simp only [scanAux, hm]
      rcases hres : res1 fp.spec st with ⟨st1, r⟩
      cases r with
      | error e =>
        simp only [rwLoop, hres, rwChunksF, hm, Except.map]
      | ok o =>
        cases o with
        | none =>
          simp only [rwLoop, hres]
          rw [show pre.length + lenOf fp = (pre ++ consumedOf fp).length from by
            simp [lenOf_consumed]]
          rw [show out ++ l = (out ++ consumedOf fp) ++ fp.rest from by rw [hdec]; simp]
          rw [show ((out.length : Int) - (pre.length : Int))
              = (((out ++ consumedOf fp).length : Int)
                - (((pre ++ consumedOf fp).length : Int))) from by
            simp only [List.length_append, lenOf_consumed]
            push_cast
            omega]
          rw [ih fp.rest st1 (pre ++ consumedOf fp) (out ++ consumedOf fp) hrest]
          simp only [rwChunksF, hm, hres]
          rcases hr : rwChunksF res1 fuel fp.rest st1 with ⟨st2, r2⟩
          cases r2 with
          | error e => simp [Except.map]
          | ok t => simp [Except.map, List.append_assoc]
        | some fin =>
          simp only [rwLoop, hres, Int.ofNat_eq_coe]
          have hstart : (((pre.length : Int))
              + ((out.length : Int) - (pre.length : Int))).toNat = out.length := by
            omega
          have hsplice : spliceAt (out ++ l) out.length (lenOf fp) (replOf fin)
              = (out ++ replOf fin) ++ fp.rest := by
            unfold spliceAt
            rw [hdec]
            rw [show out ++ (consumedOf fp ++ fp.rest)
                = (out ++ consumedOf fp) ++ fp.rest from by simp]
            have ht : ((out ++ consumedOf fp) ++ fp.rest).take out.length = out := by
              rw [show (out ++ consumedOf fp) ++ fp.rest
                  = out ++ (consumedOf fp ++ fp.rest) from by simp]
              exact List.take_left out _
            have hd : ((out ++ consumedOf fp) ++ fp.rest).drop (out.length + lenOf fp)
                = fp.rest := by
              refine List.drop_left' ?_
              simp [lenOf_consumed]
            rw [ht, hd]
          rw [hstart, hsplice]
          rw [show ((out.length : Int) - (pre.length : Int)
                + ((replOf fin).length : Int) - (lenOf fp : Int))
              = (((out ++ replOf fin).length : Int)
                - (((pre ++ consumedOf fp).length : Int))) from by
            simp only [List.length_append, lenOf_consumed]
            push_cast
            omega]
          rw [show pre.length + lenOf fp = (pre ++ consumedOf fp).length from by
            simp [lenOf_consumed]]
          rw [ih fp.rest st1 (pre ++ consumedOf fp) (out ++ replOf fin) hrest]
          simp only [rwChunksF, hm, hres]
          rcases hr : rwChunksF res1 fuel fp.rest st1 with ⟨st2, r2⟩
          cases r2 with
          | error e => simp [Except.map]
          | ok t => simp [Except.map, List.append_assoc]

/-- The rewriter at positive fuel equals the chunked formulation. -/
theorem rewrite_eq_chunks (fuel : Nat) (env : Env) (code b c : Str) (st : St) :
    rewriteImportsF (fuel + 1) env code b c st
      = rwChunks (resolveSpecifier (rwAt fuel env c) env b c) code st := by
  have h := rwLoop_eq_chunks (resolveSpecifier (rwAt fuel env c) env b c)
    code.length code st [] []
  simp only [List.length_nil, List.nil_append, Nat.cast_zero, sub_zero] at h
  have h0 := h (Nat.le_refl _)
  rw [show rewriteImportsF (fuel + 1) env code b c st
      = rwLoop (resolveSpecifier (rwAt fuel env c) env b c)
          (scanAux code.length code 0) code 0 st from rfl]
  rw [h0]
  unfold rwChunks
  rcases hr : rwChunksF (resolveSpecifier (rwAt fuel env c) env b c)
      code.length code st with ⟨st2, r2⟩
  cases r2 with
  | error e => simp [Except.map]
  | ok t => simp [Except.map]

/-- C8 (corrected): the rewriter equals the one-pass chunk rewrite — every
character outside a matched `from` clause is preserved exactly and the offset
arithmetic lands each replacement on its clause — but a replaced clause is
substituted whole as `from '<target>'`, normalizing the clause's whitespace
and quote characters rather than touching only the quoted path token. -/
theorem C8_splice_frame (fuel : Nat) (env : Env) (code b c : Str) (st : St) :
    rewriteImportsF (fuel + 1) env code b c st
      = rwChunks (resolveSpecifier (rwAt fuel env c) env b c) code st :=
  rewrite_eq_chunks fuel env code b c st

/-- C8 counterexample: on a double-quoted resolvable clause the rewriter's
output differs from the token-only rewrite the claim describes — the quote
characters around the path token change. -/
theorem C8_counterexample :
    ¬ ((rewriteImportsF 2 envA (str "import a from " ++ dq :: (str "./x.mjs" ++ [dq]))
          (str "/w") (str "/cache") stA).2
        = (tokenOnlyRewrite
            (resolveSpecifier (rwAt 1 envA (str "/cache")) envA (str "/w") (str "/cache"))
            (str "import a from " ++ dq :: (str "./x.mjs" ++ [dq])) stA).2) := by
  intro h
  have h1 : (rewriteImportsF 2 envA (str "import a from " ++ dq :: (str "./x.mjs" ++ [dq]))
        (str "/w") (str "/cache") stA).2
      = Except.ok (str "import a from " ++ qc :: (str "file:///w/x.mjs" ++ [qc])) := rfl
  have h2 : (tokenOnlyRewrite
        (resolveSpecifier (rwAt 1 envA (str "/cache")) envA (str "/w") (str "/cache"))
        (str "import a from " ++ dq :: (str "./x.mjs" ++ [dq])) stA).2
      = Except.ok (str "import a from " ++ dq :: (str "file:///w/x.mjs" ++ [dq])) := rfl
  rw [h1, h2] at h
  simp only [Except.ok.injEq] at h
  exact absurd h (by decide)

/-- The final import target of a successful materialization is determined by
the resolved path alone (the cache-file URL for typed/markup sources, the
path's own URL otherwise) — never by the state. -/
theorem finalizeResolved_ok_val (rw : Str → Str → St → St × Except RwErr Str)
    (env : Env) (c p : Str) (st st2 : St) (v : Str)
    (h : finalizeResolved rw env c p st = (st2, .ok v)) :
    v = if isTsLike (extname p) then fileURL env (cachedFileName env c p)
      else fileURL env p := by
  unfold finalizeResolved at h
  cases htl : isTsLike (extname p) with
  | false =>
    simp only [htl, Bool.false_eq_true, if_false] at h ⊢
    rw [Prod.mk.injEq] at h
    have := h.2
    simp only [Except.ok.injEq] at this
    exact this.symm
  | true =>
    simp only [htl, if_true] at h ⊢
    rcases hr : regenCheck st p (cachedFileName env c p) with e | b
    · simp only [hr] at h
      rw [Prod.mk.injEq] at h
      exact absurd h.2 (by simp)
    · cases b with
      | false =>
        simp only [hr] at h
        rw [Prod.mk.injEq] at h
        have := h.2
        simp only [Except.ok.injEq] at this
        exact this.symm
      | true =>
        simp only [hr] at h
        rcases hf : readFile st p with e | src
        · simp only [hf] at h
          rw [Prod.mk.injEq] at h
          exact absurd h.2 (by simp)
        · simp only [hf] at h
          rcases htr : env.transform (getLoader (extname p)) p src with m | res
          · simp only [htr] at h
            rw [Prod.mk.injEq] at h
            exact absurd h.2 (by simp)
          · simp only [htr] at h
            rcases hrw2 : rw res (dirname p) (addEv (Ev.transformEv p) st) with ⟨s2, r⟩
            cases r with
            | error e =>
              simp only [hrw2] at h
              rw [Prod.mk.injEq] at h
              exact absurd h.2 (by simp)
            | ok dc =>
              simp only [hrw2] at h
              rw [Prod.mk.injEq] at h
              have := h.2
              simp only [Except.ok.injEq] at this
              exact this.symm

/-- Inversion of `mapSome` on a successful result. -/
theorem mapSome_ok (r : St × Except RwErr Str) (s : St) (o : Option Str)
    (h : mapSome r = (s, .ok o)) : ∃ v, r = (s, .ok v) ∧ o = some v := by
  rcases r with ⟨s0, r0⟩
  cases r0 with
  | error e =>
    simp only [mapSome, Except.map] at h
    rw [Prod.mk.injEq] at h
    exact absurd h.2 (by simp)
  | ok v =>
    simp only [mapSome, Except.map] at h
    rw [Prod.mk.injEq] at h
    have := h.2
    simp only [Except.ok.injEq] at this
    exact ⟨v, by rw [h.1], this.symm⟩

/-- Two successful materializations of the same path from any two states
yield the same clause target. -/
theorem finalizeResolved_val_eq (rw : Str → Str → St → St × Except RwErr Str)
    (env : Env) (c p : Str) (stA stB sA sB : St) (oA oB : Option Str)
    (hA : mapSome (finalizeResolved rw env c p stA) = (sA, .ok oA))
    (hB : mapSome (finalizeResolved rw env c p stB) = (sB, .ok oB)) :
    oA = oB := by
  rcases mapSome_ok _ _ _ hA with ⟨vA, hA1, hA2⟩
  rcases mapSome_ok _ _ _ hB with ⟨vB, hB1, hB2⟩
  rw [hA2, hB2, finalizeResolved_ok_val rw env c p stA sA vA hA1,
    finalizeResolved_ok_val rw env c p stB sB vB hB1]

/-- Two successful bare-specifier fallbacks from exists-equal states yield
the same clause decision. -/
theorem bareFallback_val_eq (rw : Str → Str → St → St × Except RwErr Str)
    (env : Env) (b c p : Str) (stA stB sA sB : St) (oA oB : Option Str)
    (hA : bareFallback rw env b c p stA = (sA, .ok oA))
    (hB : bareFallback rw env b c p stB = (sB, .ok oB)) :
    oA = oB := by
  unfold bareFallback at hA hB
  rcases hres : env.resolveBare b p with _ | resolved
  · simp only [hres] at hA hB
    rw [Prod.mk.injEq] at hA hB
    have h1 := hA.2
    have h2 := hB.2
    simp only [Except.ok.injEq] at h1 h2
    rw [← h1, ← h2]
  · simp only [hres] at hA hB
    cases htl : isTsLike (extname resolved) with
    | true =>
      simp only [htl, if_true] at hA hB
      exact finalizeResolved_val_eq rw env c resolved stA stB sA sB oA oB hA hB
    | false =>
      simp only [htl, Bool.false_eq_true, if_false] at hA hB
      cases hg : (!(isPreOf (str ".") p) && !(isPreOf (str "/") p)
          && !(isPreOf (str "file://") p)) with
      | true =>
        simp only [hg, if_true] at hA hB
        exact finalizeResolved_val_eq rw env c resolved stA stB sA sB oA oB hA hB
      | false =>
        simp only [hg, Bool.false_eq_true, if_false] at hA hB
        rw [Prod.mk.injEq] at hA hB
        have h1 := hA.2
        have h2 := hB.2
        simp only [Except.ok.injEq] at h1 h2
        rw [← h1, ← h2]

/-- Two successful resolutions of the same specifier from exists-equal states
make the same clause decision: the decision depends on the specifier, the
environment and file existence only. -/
theorem resolveSpecifier_val_eq (rw : Str → Str → St → St × Except RwErr Str)
    (env : Env) (b c spec : Str) (stA stB sA sB : St) (oA oB : Option Str)
    (hex : stA.fsExists = stB.fsExists)
    (hA : resolveSpecifier rw env b c spec stA = (sA, .ok oA))
    (hB : resolveSpecifier rw env b c spec stB = (sB, .ok oB)) :
    oA = oB := by
  unfold resolveSpecifier at hA hB
  cases h1 : isReactSpec spec with
  | true =>
    simp only [h1, if_true] at hA hB
    rw [Prod.mk.injEq] at hA hB
    have hx := hA.2
    have hy := hB.2
    simp only [Except.ok.injEq] at hx hy
    rw [← hx, ← hy]
  | false =>
  simp only [h1, Bool.false_eq_true, if_false] at hA hB
  cases h2 : isReactDomSpec spec with
  | true =>
    simp only [h2, if_true] at hA hB
    rw [Prod.mk.injEq] at hA hB
    have hx := hA.2
    have hy := hB.2
    simp only [Except.ok.injEq] at hx hy
    rw [← hx, ← hy]
  | false =>
  simp only [h2, Bool.false_eq_true, if_false] at hA hB
  cases h3 : spec == str "react-native" with
  | true =>
    simp only [h3, if_true] at hA hB
    exact finalizeResolved_val_eq rw env c _ stA stB sA sB oA oB hA hB
  | false =>
  simp only [h3, Bool.false_eq_true, if_false] at hA hB
  cases h4 : (spec == str "@float-v/core" || spec == str "@float-v/lite") with
  | true =>
    simp only [h4, if_true] at hA hB
    rw [hex] at hA
    exact finalizeResolved_val_eq rw env c _ stA stB sA sB oA oB hA hB
  | false =>
  simp only [h4, Bool.false_eq_true, if_false] at hA hB
  cases h5 : (isPreOf (str "./") spec || isPreOf (str "../") spec
      || isPreOf (str "@/") spec) with
  | true =>
    simp only [h5, if_true] at hA hB
    rw [hex] at hA
    cases h6 : isPreOf (str "@/") spec with
    | true =>
      simp only [h6, if_true] at hA hB
      rcases hp : probeRelative stB.fsExists (pathResolve env.cwd (spec.drop 2))
        with _ | q
      · simp only [hp] at hA hB
        exact bareFallback_val_eq rw env b c spec stA stB sA sB oA oB hA hB
      · simp only [hp] at hA hB
        exact finalizeResolved_val_eq rw env c q stA stB sA sB oA oB hA hB
    | false =>
      simp only [h6, Bool.false_eq_true, if_false] at hA hB
      rcases hp : probeRelative stB.fsExists (pathResolve b spec) with _ | q
      · simp only [hp] at hA hB
        exact bareFallback_val_eq rw env b c spec stA stB sA sB oA oB hA hB
      · simp only [hp] at hA hB
        exact finalizeResolved_val_eq rw env c q stA stB sA sB oA oB hA hB
  | false =>
  simp only [h5, Bool.false_eq_true, if_false] at hA hB
  exact bareFallback_val_eq rw env b c spec stA stB sA sB oA oB hA hB

/-- Lockstep comparison of two successful replacement-loop runs over the same
match list from exists-equal states whose final states are exists-unchanged:
the resulting code strings are equal.  The sandwich via exists-monotonicity
keeps every intermediate state exists-equal to the anchor. -/
theorem rwLoop_ls (rw : Str → Str → St → St × Except RwErr Str) (env : Env)
    (b c : Str) (hrw : ∀ cd bd s, stEvolves s (rw cd bd s).1) (E : Str → Bool) :
    ∀ (ms : List FromMatch) (nc : Str) (off : Int) (stA stB stA2 stB2 : St)
      (outA outB : Str),
      stA.fsExists = E → stB.fsExists = E →
      rwLoop (resolveSpecifier rw env b c) ms nc off stA = (stA2, .ok outA) →
      rwLoop (resolveSpecifier rw env b c) ms nc off stB = (stB2, .ok outB) →
      stA2.fsExists = E → stB2.fsExists = E →
      outA = outB := by
  intro ms
  induction ms with
  | nil =>
    intro nc off stA stB stA2 stB2 outA outB hea heb hA hB hea2 heb2
    simp only [rwLoop] at hA hB
    rw [Prod.mk.injEq] at hA hB
    have h1 := hA.2
    have h2 := hB.2
    simp only [Except.ok.injEq] at h1 h2
    rw [← h1, ← h2]
  | cons m ms ih =>
    intro nc off stA stB stA2 stB2 outA outB hea heb hA hB hea2 heb2
    rcases hresA : resolveSpecifier rw env b c m.spec stA with ⟨stA1, rA⟩
    rcases hresB : resolveSpecifier rw env b c m.spec stB with ⟨stB1, rB⟩
    cases rA with
    | error e =>
      simp only [rwLoop, hresA] at hA
      rw [Prod.mk.injEq] at hA
      exact absurd hA.2 (by simp)
    | ok oA1 =>
    cases rB with
    | error e =>
      simp only [rwLoop, hresB] at hB
      rw [Prod.mk.injEq] at hB
      exact absurd hB.2 (by simp)
    | ok oB1 =>
    have hval : oA1 = oB1 :=
      resolveSpecifier_val_eq rw env b c m.spec stA stB stA1 stB1 oA1 oB1
        (by rw [hea, heb]) hresA hresB
    have hgA1 : stEvolves stA stA1 := by
      have := resolveSpecifier_evolves rw env b c m.spec hrw stA
      rw [hresA] at this
      exact this
    have hgB1 : stEvolves stB stB1 := by
      have := resolveSpecifier_evolves rw env b c m.spec hrw stB
      rw [hresB] at this
      exact this
    have hsand : ∀ (s0 s1 s2 : St), s0.fsExists = E → s2.fsExists = E →
        stEvolves s0 s1 → stEvolves s1 s2 → s1.fsExists = E := by
      intro s0 s1 s2 he0 he2 hg1 hg2
      funext q
      cases hEq : E q with
      | true =>
        have h0 : s0.fsExists q = true := by rw [he0, hEq]
        exact (hg1.1 q h0).trans hEq.symm ▸ hg1.1 q h0
      | false =>
        cases h1 : s1.fsExists q with
        | false => rfl
        | true =>
          have h2 : s2.fsExists q = true := hg2.1 q h1
          rw [he2, hEq] at h2
          exact absurd h2 (by simp)
    cases oA1 with
    | none =>
      rw [← hval] at hresB
      simp only [rwLoop, hresA] at hA
      simp only [rwLoop, hresB] at hB
      have heA1 : stA1.fsExists = E := by
        refine hsand stA stA1 stA2 hea hea2 hgA1 ?_
        have := rwLoop_evolves (resolveSpecifier rw env b c)
          (fun spec s => by
            have h := resolveSpecifier_evolves rw env b c spec hrw s
            exact h) ms nc off stA1
        rw [hA] at this
        exact this
      have heB1 : stB1.fsExists = E := by
        refine hsand stB stB1 stB2 heb heb2 hgB1 ?_
        have := rwLoop_evolves (resolveSpecifier rw env b c)
          (fun spec s => by
            have h := resolveSpecifier_evolves rw env b c spec hrw s
            exact h) ms nc off stB1
        rw [hB] at this
        exact this
      exact ih nc off stA1 stB1 stA2 stB2 outA outB heA1 heB1 hA hB hea2 heb2
    | some fin =>
      rw [← hval] at hresB
      simp only [rwLoop, hresA] at hA
      simp only [rwLoop, hresB] at hB
      have heA1 : stA1.fsExists = E := by
        refine hsand stA stA1 stA2 hea hea2 hgA1 ?_
        have := rwLoop_evolves (resolveSpecifier rw env b c)
          (fun spec s => by
            have h := resolveSpecifier_evolves rw env b c spec hrw s
            exact h) ms
          (spliceAt nc (Int.toNat (Int.ofNat m.idx + off)) m.len (replOf fin))
          (off + Int.ofNat (replOf fin).length - Int.ofNat m.len) stA1
        rw [hA] at this
        exact this
      have heB1 : stB1.fsExists = E := by
        refine hsand stB stB1 stB2 heb heb2 hgB1 ?_
        have := rwLoop_evolves (resolveSpecifier rw env b c)
          (fun spec s => by
            have h := resolveSpecifier_evolves rw env b c spec hrw s
            exact h) ms
          (spliceAt nc (Int.toNat (Int.ofNat m.idx + off)) m.len (replOf fin))
          (off + Int.ofNat (replOf fin).length - Int.ofNat m.len) stB1
        rw [hB] at this
        exact this
      exact ih _ _ stA1 stB1 stA2 stB2 outA outB heA1 heB1 hA hB hea2 heb2

/-- Two successful rewriter runs on the same code from exists-equal states
whose runs leave file existence unchanged return equal code: modification
times, file contents and cache regeneration decisions do not influence the
rewritten output. -/
theorem rewriteImportsF_okeq :
    ∀ (fuel : Nat) (env : Env) (code b c : Str) (stA stB stA2 stB2 : St)
      (outA outB : Str),
      stA.fsExists = stB.fsExists →
      rewriteImportsF fuel env code b c stA = (stA2, .ok outA) →
      rewriteImportsF fuel env code b c stB = (stB2, .ok outB) →
      stA2.fsExists = stA.fsExists →
      stB2.fsExists = stB.fsExists →
      outA = outB := by
  intro fuel env code b c stA stB stA2 stB2 outA outB hex hA hB hA2 hB2
  cases fuel with
  | zero =>
    simp only [rewriteImportsF] at hA
    rw [Prod.mk.injEq] at hA
    exact absurd hA.2 (by simp)
  | succ fuel =>
    have hA' : rwLoop (resolveSpecifier (rwAt fuel env c) env b c)
        (scanMatches code) code 0 stA = (stA2, .ok outA) := hA
    have hB' : rwLoop (resolveSpecifier (rwAt fuel env c) env b c)
        (scanMatches code) code 0 stB = (stB2, .ok outB) := hB
    exact rwLoop_ls (rwAt fuel env c) env b c
      (fun cd bd s => rewriteImportsF_evolves fuel env cd bd c s)
      stA.fsExists (scanMatches code) code 0 stA stB stA2 stB2 outA outB
      rfl hex.symm hA' hB' hA2 (hB2.trans hex.symm)

/-- C9 (corrected): running the transform-inject-rewrite-strip pipeline twice
on the same entry file yields byte-identical code provided the entry content
is unchanged and neither run changes which files exist (every cache write
overwrites an already existing file, as with a warm dependency cache): the
output is then independent of modification times, cache-file contents and
regeneration decisions.  The existence proviso is forced by the cold-cache
counterexample, where the first run creates a cache file that a specifier of
the same entry probes. -/
theorem C9_pipeline_det (fuel : Nat) (env : Env) (p td : Str) (st st1 st2 : St)
    (c1 c2 : Str)
    (h1 : buildCode fuel env p td st = (st1, .ok c1))
    (h2 : buildCode fuel env p td st1 = (st2, .ok c2))
    (hex1 : st1.fsExists = st.fsExists)
    (hex2 : st2.fsExists = st1.fsExists)
    (hcontent : st1.fsContent p = st.fsContent p) :
    c1 = c2 := by
  unfold buildCode at h1 h2
  rw [hcontent] at h2
  rcases htr : env.transform (getLoader (extname p)) p (st.fsContent p) with m | tc
  · simp only [htr] at h1
    rw [Prod.mk.injEq] at h1
    exact absurd h1.2 (by simp)
  · simp only [htr] at h1 h2
    rcases hrA : rewriteImportsF fuel env (injectReactImport tc) (dirname p) td
        (addEv (Ev.transformEv p) st) with ⟨sA, rA⟩
    rcases hrB : rewriteImportsF fuel env (injectReactImport tc) (dirname p) td
        (addEv (Ev.transformEv p) st1) with ⟨sB, rB⟩
    cases rA with
    | error e =>
      simp only [hrA] at h1
      rw [Prod.mk.injEq] at h1
      exact absurd h1.2 (by simp)
    | ok a =>
    cases rB with
    | error e =>
      simp only [hrB] at h2
      rw [Prod.mk.injEq] at h2
      exact absurd h2.2 (by simp)
    | ok bb =>
    simp only [hrA] at h1
    simp only [hrB] at h2
    rw [Prod.mk.injEq] at h1 h2
    have hsA : sA = st1 := h1.1
    have hsB : sB = st2 := h2.1
    have hab : a = bb := by
      refine rewriteImportsF_okeq fuel env (injectReactImport tc) (dirname p) td
        (addEv (Ev.transformEv p) st) (addEv (Ev.transformEv p) st1) sA sB a bb
        ?_ hrA hrB ?_ ?_
      · show st.fsExists = st1.fsExists
        exact hex1.symm
      · show sA.fsExists = st.fsExists
        rw [hsA]
        exact hex1
      · show sB.fsExists = st1.fsExists
        rw [hsB]
        exact hex2
    have hc1 : c1 = stripCss a := by
      have := h1.2
      simp only [Except.ok.injEq] at this
      exact this.symm
    have hc2 : c2 = stripCss bb := by
      have := h2.2
      simp only [Except.ok.injEq] at this
      exact this.symm
    rw [hc1, hc2, hab]

/-- C9 witness: a concrete double run on an entry with a typed dependency
whose cache file exists but is stale — the first run re-transforms and
overwrites it in place, the second reuses it, and the code is byte-identical
both times. -/
theorem C9_witness :
    (buildCode 2 envA (str "/w/a.ts") (str "/cache") stC9w).2
      = (buildCode 2 envA (str "/w/a.ts") (str "/cache")
          ((buildCode 2 envA (str "/w/a.ts") (str "/cache") stC9w).1)).2 := by
  have e1 : (buildCode 2 envA (str "/w/a.ts") (str "/cache") stC9w).2
      = Except.ok (str "// import React\nimport D from "
          ++ qc :: (str "file:///cache/dep_wd.ts.mjs" ++ [qc]) ++ str ";") := by rfl
  have e2 : (buildCode 2 envA (str "/w/a.ts") (str "/cache")
        ((buildCode 2 envA (str "/w/a.ts") (str "/cache") stC9w).1)).2
      = Except.ok (str "// import React\nimport D from "
          ++ qc :: (str "file:///cache/dep_wd.ts.mjs" ++ [qc]) ++ str ";") := by rfl
  have hex1 : ((buildCode 2 envA (str "/w/a.ts") (str "/cache") stC9w).1).fsExists
      = stC9w.fsExists := by
    have hred : ((buildCode 2 envA (str "/w/a.ts") (str "/cache") stC9w).1).fsExists
        = fun q => (q == str "/cache/dep_wd.ts.mjs" || stC9w.fsExists q) := rfl
    rw [hred]
    funext q
    cases hq : q == str "/cache/dep_wd.ts.mjs" with
    | false => simp [hq]
    | true =>
      have hqe : q = str "/cache/dep_wd.ts.mjs" := eq_of_beq hq
      subst hqe
      simp [hq]
      decide
  have happ := C9_pipeline_det 2 envA (str "/w/a.ts") (str "/cache") stC9w
    ((buildCode 2 envA (str "/w/a.ts") (str "/cache") stC9w).1)
    ((buildCode 2 envA (str "/w/a.ts") (str "/cache")
        ((buildCode 2 envA (str "/w/a.ts") (str "/cache") stC9w).1)).1)
    (str "// import React\nimport D from "
      ++ qc :: (str "file:///cache/dep_wd.ts.mjs" ++ [qc]) ++ str ";")
    (str "// import React\nimport D from "
      ++ qc :: (str "file:///cache/dep_wd.ts.mjs" ++ [qc]) ++ str ";")
    (by rw [← e1]) (by rw [← e2]) hex1 rfl (by decide)
  rw [e1, e2]

set_option maxRecDepth 4000 in
/-- C9 counterexample: over a cold cache the claim fails.  The entry imports
a path inside the cache directory (unresolvable, left as-is by the first run)
and a typed dependency; the first run creates the dependency's cache file
`dep_wd.ts.mjs`, which the second run's probe then finds, so the rewritten
code differs between the two runs even though the entry and the dependency
source are byte- and mtime-unchanged. -/
theorem C9_counterexample :
    (buildCode 2 envA (str "/w/a.ts") (str "/w/.float/.cache") stC9cold).2
        = Except.ok (str "// import React\nimport Y from \"./.float/.cache/dep_wd.ts\";\nimport D from "
            ++ qc :: (str "file:///w/.float/.cache/dep_wd.ts.mjs" ++ [qc]) ++ str ";")
    ∧ (buildCode 2 envA (str "/w/a.ts") (str "/w/.float/.cache")
          ((buildCode 2 envA (str "/w/a.ts") (str "/w/.float/.cache") stC9cold).1)).2
        = Except.ok (str "// import React\nimport Y from "
            ++ qc :: (str "file:///w/.float/.cache/dep_wd.ts.mjs" ++ [qc])
            ++ str ";\nimport D from "
            ++ qc :: (str "file:///w/.float/.cache/dep_wd.ts.mjs" ++ [qc]) ++ str ";")
    ∧ ¬ ((str "// import React\nimport Y from \"./.float/.cache/dep_wd.ts\";\nimport D from "
            ++ qc :: (str "file:///w/.float/.cache/dep_wd.ts.mjs" ++ [qc]) ++ str ";")
          = (str "// import React\nimport Y from "
            ++ qc :: (str "file:///w/.float/.cache/dep_wd.ts.mjs" ++ [qc])
            ++ str ";\nimport D from "
            ++ qc :: (str "file:///w/.float/.cache/dep_wd.ts.mjs" ++ [qc]) ++ str ";"))
    ∧ ((buildCode 2 envA (str "/w/a.ts") (str "/w/.float/.cache") stC9cold).1).fsMtime
          (str "/w/d.ts")
        = stC9cold.fsMtime (str "/w/d.ts")
    ∧ ((buildCode 2 envA (str "/w/a.ts") (str "/w/.float/.cache") stC9cold).1).fsContent
          (str "/w/a.ts")
        = stC9cold.fsContent (str "/w/a.ts") := by
  exact ⟨rfl, rfl, by decide, rfl, rfl⟩

end FloatV



